import Mathlib

set_option autoImplicit false
set_option maxRecDepth 8000

/-!
Verification development for the NoobiOS overlay task manager.

The app's data lives in JavaScript/JSON values: the base dataset, the
persisted overlay, AI suggestion payloads and individual items are all plain
JS objects.  We embed them as the inductive type `JVal` below and translate
the relevant functions of `src/app.js`, `src/unnamed/part_000` (the ops
engine) and `src/unnamed/part_001` (the provider layer) into Lean over this
type.  JS numbers are modelled as integers (the app's persisted numeric
fields are integral); `undefined` is modelled as the absence of a key, i.e.
`Option.none` on lookups, while JS `null` is the explicit value `JVal.null`.
-/

/-- A JavaScript/JSON value: null, boolean, number (integral), string,
array, or object (ordered key/value list, as JS objects are ordered). -/
inductive JVal where
  | null
  | bool (b : Bool)
  | num (n : Int)
  | str (s : String)
  | arr (xs : List JVal)
  | obj (kvs : List (String × JVal))
deriving Repr

mutual

/-- Structural decidable equality for `JVal`. -/
def JVal.decEq : (a b : JVal) → Decidable (a = b)
  | .null, .null => isTrue rfl
  | .bool a, .bool b =>
      if h : a = b then isTrue (by rw [h]) else isFalse (by intro hh; cases hh; exact h rfl)
  | .num a, .num b =>
      if h : a = b then isTrue (by rw [h]) else isFalse (by intro hh; cases hh; exact h rfl)
  | .str a, .str b =>
      if h : a = b then isTrue (by rw [h]) else isFalse (by intro hh; cases hh; exact h rfl)
  | .arr xs, .arr ys =>
      match JVal.decEqList xs ys with
      | isTrue h => isTrue (by rw [h])
      | isFalse h => isFalse (by intro hh; cases hh; exact h rfl)
  | .obj xs, .obj ys =>
      match JVal.decEqKVs xs ys with
      | isTrue h => isTrue (by rw [h])
      | isFalse h => isFalse (by intro hh; cases hh; exact h rfl)
  | .null, .bool _ | .null, .num _ | .null, .str _ | .null, .arr _ | .null, .obj _
  | .bool _, .null | .bool _, .num _ | .bool _, .str _ | .bool _, .arr _ | .bool _, .obj _
  | .num _, .null | .num _, .bool _ | .num _, .str _ | .num _, .arr _ | .num _, .obj _
  | .str _, .null | .str _, .bool _ | .str _, .num _ | .str _, .arr _ | .str _, .obj _
  | .arr _, .null | .arr _, .bool _ | .arr _, .num _ | .arr _, .str _ | .arr _, .obj _
  | .obj _, .null | .obj _, .bool _ | .obj _, .num _ | .obj _, .str _ | .obj _, .arr _ =>
      isFalse (fun h => nomatch h)

/-- Decidable equality for lists of `JVal`. -/
def JVal.decEqList : (a b : List JVal) → Decidable (a = b)
  | [], [] => isTrue rfl
  | [], _ :: _ => isFalse (fun h => nomatch h)
  | _ :: _, [] => isFalse (fun h => nomatch h)
  | x :: xs, y :: ys =>
      match JVal.decEq x y with
      | isFalse h => isFalse (by intro hh; cases hh; exact h rfl)
      | isTrue h1 =>
          match JVal.decEqList xs ys with
          | isTrue h2 => isTrue (by rw [h1, h2])
          | isFalse h2 => isFalse (by intro hh; cases hh; exact h2 rfl)

/-- Decidable equality for key/value lists. -/
def JVal.decEqKVs : (a b : List (String × JVal)) → Decidable (a = b)
  | [], [] => isTrue rfl
  | [], _ :: _ => isFalse (fun h => nomatch h)
  | _ :: _, [] => isFalse (fun h => nomatch h)
  | (k, v) :: xs, (k', v') :: ys =>
      if hk : k = k' then
        match JVal.decEq v v' with
        | isFalse h => isFalse (by intro hh; cases hh; exact h rfl)
        | isTrue h1 =>
            match JVal.decEqKVs xs ys with
            | isTrue h2 => isTrue (by rw [hk, h1, h2])
            | isFalse h2 => isFalse (by intro hh; cases hh; exact h2 rfl)
      else isFalse (by intro hh; cases hh; exact hk rfl)

end

instance : DecidableEq JVal := JVal.decEq

/-- JS truthiness of a value (`NaN` is not representable in this model). -/
def JVal.truthy : JVal → Bool
  | .null => false
  | .bool b => b
  | .num n => n != 0
  | .str s => s != ""
  | .arr _ => true
  | .obj _ => true

/-- Whether `typeof v === "object"` holds in JS (true for objects, arrays
and `null`). -/
def JVal.isTypeofObject : JVal → Bool
  | .null => true
  | .arr _ => true
  | .obj _ => true
  | _ => false

/-- Truthiness of a possibly-absent value (`undefined` is falsy). -/
def truthyO : Option JVal → Bool
  | none => false
  | some v => v.truthy

mutual

/-- JS `String(v)` / template-literal coercion.  Array elements that are
`null` stringify to the empty string inside a joined array. -/
def jsToStr : JVal → String
  | .null => "null"
  | .bool b => if b then "true" else "false"
  | .num n => toString n
  | .str s => s
  | .obj _ => "[object Object]"
  | .arr xs => jsArrStr xs

/-- Comma-joined stringification of array elements (JS
`Array.prototype.toString`). -/
def jsArrStr : List JVal → String
  | [] => ""
  | v :: rest =>
      (if v = JVal.null then "" else jsToStr v) ++
      (match rest with
       | [] => ""
       | _ => "," ++ jsArrStr rest)

end

/-- First-match lookup in an ordered key/value list (JS property read). -/
def lookupKV : List (String × JVal) → String → Option JVal
  | [], _ => none
  | (k, v) :: rest, key => if k = key then some v else lookupKV rest key

/-- JS property read `v[key]`; only objects carry named properties in this
model (JSON arrays and primitives have none of the keys the app reads). -/
def JVal.get : JVal → String → Option JVal
  | .obj kvs, key => lookupKV kvs key
  | _, _ => none

/-- JS property write: update an existing key in place (JS objects keep the
original insertion position) or append a fresh one. -/
def objUpsert : List (String × JVal) → String → JVal → List (String × JVal)
  | [], k, v => [(k, v)]
  | (k', v') :: rest, k, v =>
      if k' = k then (k, v) :: rest else (k', v') :: objUpsert rest k v

/-- The key/value pairs contributed by `{...v}` (object spread): objects
contribute their entries, arrays and strings their indexed elements,
primitives nothing. -/
def spreadPairs : JVal → List (String × JVal)
  | .obj kvs => kvs
  | .arr xs => xs.enum.map fun p => (toString p.1, p.2)
  | .str s => s.toList.enum.map fun p => (toString p.1, JVal.str (String.singleton p.2))
  | _ => []

/-- Fold a list of writes over an object's entries (the effect of spreading
or `Object.assign`ing `b` onto `a`). -/
def mergePairs (a b : List (String × JVal)) : List (String × JVal) :=
  b.foldl (fun acc p => objUpsert acc p.1 p.2) a

/-- The JS object literal `{...a, ...b}`. -/
def jsSpread2 (a b : JVal) : JVal :=
  .obj (mergePairs (mergePairs [] (spreadPairs a)) (spreadPairs b))

/-- The value of the last binding of `k` among the written pairs; this is
what a sequence of JS property writes leaves behind for `k`. -/
def lastBind (l : List (String × JVal)) (k : String) : Option JVal :=
  (l.reverse.find? fun p => p.1 = k).map Prod.snd

/-- Keys of a single obj value. -/
def objKeysOf : JVal → List String
  | .obj kvs => kvs.map Prod.fst
  | _ => []

/-- `Object.keys(v)`: named keys of an object, index strings of an array or
string, nothing for other primitives. -/
def jsKeys : JVal → List String
  | .obj kvs => kvs.map Prod.fst
  | .arr xs => (List.range xs.length).map toString
  | .str s => (List.range s.length).map toString
  | _ => []

/-- JS `a || b` where `a` is a possibly-absent property read: the first
operand if truthy, otherwise the second. -/
def jsOrV (a : Option JVal) (b : JVal) : JVal :=
  match a with
  | some v => if v.truthy then v else b
  | none => b

/-- JS `a ?? b` where `a` is a possibly-absent property read. -/
def nullishV (a : Option JVal) (b : JVal) : JVal :=
  match a with
  | some .null => b
  | some v => v
  | none => b

/-- JS `a || b || c || d` over possibly-absent reads: the first truthy
operand, otherwise the (possibly absent or falsy) last operand. -/
def firstTruthy4 (a b c d : Option JVal) : Option JVal :=
  if truthyO a then a else if truthyO b then b else if truthyO c then c else d

/-- `safeText` from src/app.js lines 55-57: `(s ?? "").toString()`. -/
def safeTextV : JVal → String
  | .null => ""
  | v => jsToStr v

-- Basic lookup/upsert lemmas shared by the merge and overlay proofs.

theorem lookupKV_objUpsert_self (l : List (String × JVal)) (k : String) (v : JVal) :
    lookupKV (objUpsert l k v) k = some v := by
  induction l with
  | nil => simp [objUpsert, lookupKV]
  | cons p rest ih =>
      by_cases h : p.1 = k
      · simp [objUpsert, h, lookupKV]
      · simp [objUpsert, h, lookupKV, ih]

theorem lookupKV_objUpsert_ne (l : List (String × JVal)) (k k' : String) (v : JVal)
    (h : k ≠ k') : lookupKV (objUpsert l k v) k' = lookupKV l k' := by
  induction l with
  | nil => simp [objUpsert, lookupKV, h]
  | cons p rest ih =>
      by_cases hp : p.1 = k
      · simp [objUpsert, hp, lookupKV, h]
      · simp only [objUpsert, hp, if_false, lookupKV]
        by_cases hp' : p.1 = k' <;> simp [hp', ih]

theorem lastBind_cons (p : String × JVal) (l : List (String × JVal)) (k : String) :
    lastBind (p :: l) k =
      (match lastBind l k with
       | some v => some v
       | none => if p.1 = k then some p.2 else none) := by
  simp only [lastBind, List.reverse_cons, List.find?_append]
  cases h : (l.reverse.find? fun q => q.1 = k) with
  | some v => simp
  | none =>
      by_cases hp : p.1 = k <;> simp [List.find?, hp]

theorem lookupKV_mergePairs (a b : List (String × JVal)) (k : String) :
    lookupKV (mergePairs a b) k =
      (match lastBind b k with
       | some v => some v
       | none => lookupKV a k) := by
  induction b generalizing a with
  | nil => simp [mergePairs, lastBind]
  | cons p rest ih =>
      have step : mergePairs a (p :: rest) = mergePairs (objUpsert a p.1 p.2) rest := by
        simp [mergePairs]
      rw [step, ih, lastBind_cons]
      cases h : lastBind rest k with
      | some v => simp
      | none =>
          by_cases hp : p.1 = k

          · subst hp; simp [lookupKV_objUpsert_self]
          · simp [hp, lookupKV_objUpsert_ne a p.1 k p.2 hp]

theorem objUpsert_of_not_mem (l : List (String × JVal)) (k : String) (v : JVal)
    (h : k ∉ l.map Prod.fst) : objUpsert l k v = l ++ [(k, v)] := by
  induction l with
  | nil => simp [objUpsert]
  | cons p rest ih =>
      simp only [List.map_cons, List.mem_cons] at h
      push_neg at h
      have hne : p.1 ≠ k := fun hh => h.1 hh.symm
      simp [objUpsert, hne, ih h.2]

theorem mergePairs_nil_of_nodup (l : List (String × JVal))
    (h : (l.map Prod.fst).Nodup) : mergePairs [] l = l := by
  suffices H : ∀ acc : List (String × JVal),
      (∀ k, k ∈ l.map Prod.fst → k ∉ acc.map Prod.fst) →
      mergePairs acc l = acc ++ l by
    simpa using H [] (by simp)
  induction l with
  | nil => intro acc _; simp [mergePairs]
  | cons p rest ih =>
      intro acc hacc
      have hstep : mergePairs acc (p :: rest) = mergePairs (objUpsert acc p.1 p.2) rest := by
        simp [mergePairs]
      have hnotin : p.1 ∉ acc.map Prod.fst := hacc p.1 (by simp)
      have hup : objUpsert acc p.1 p.2 = acc ++ [p] := by
        simpa using objUpsert_of_not_mem acc p.1 p.2 hnotin
      have hnodup := h
      simp only [List.map_cons, List.nodup_cons] at hnodup
      have hrest := ih hnodup.2 (acc ++ [p]) ?_
      · rw [hstep, hup, hrest]; simp
      · intro k hk
        simp only [List.map_append, List.mem_append, List.map_cons, List.map_nil]
        push_neg
        constructor
        · exact hacc k (by simp [hk])
        · intro hkp
          simp only [List.mem_singleton] at hkp
          exact absurd (hkp ▸ hk) hnodup.1

/-! ### JSON parsing (model of `JSON.parse`)

A recursive-descent parser over the character list.  It covers the JSON
fragment the app persists and receives: objects, arrays, strings with the
standard escapes, integral numbers, `true`/`false`/`null`.  Non-integral
numerals (fractions/exponents) do not occur in the app's persisted data and
are treated as parse failures.  Duplicate object keys keep the last value at
the first occurrence's position, as `JSON.parse` does. -/

/-- JSON whitespace. -/
def isJsonWs (c : Char) : Bool :=
  c = ' ' || c = '\t' || c = '\n' || c = '\r'

/-- Skip leading JSON whitespace. -/
def skipWs : List Char → List Char
  | c :: rest => if isJsonWs c then skipWs rest else c :: rest
  | [] => []

/-- Value of a hex digit. -/
def hexVal? (c : Char) : Option Nat :=
  if '0' ≤ c ∧ c ≤ '9' then some (c.toNat - 48)
  else if 'a' ≤ c ∧ c ≤ 'f' then some (c.toNat - 87)
  else if 'A' ≤ c ∧ c ≤ 'F' then some (c.toNat - 55)
  else none

/-- Parse the remainder of a JSON string literal (opening quote already
consumed), returning the decoded characters and the rest of the input. -/
def parseJStrChars : List Char → Option (List Char × List Char)
  | [] => none
  | '"' :: rest => some ([], rest)
  | '\\' :: 'u' :: a :: b :: c :: d :: rest =>
      match hexVal? a, hexVal? b, hexVal? c, hexVal? d with
      | some ha, some hb, some hc, some hd =>
          (parseJStrChars rest).map fun q =>
            (Char.ofNat (((ha * 16 + hb) * 16 + hc) * 16 + hd) :: q.1, q.2)
      | _, _, _, _ => none
  | '\\' :: e :: rest =>
      match (if e = '"' then some '"'
             else if e = '\\' then some '\\'
             else if e = '/' then some '/'
             else if e = 'n' then some '\n'
             else if e = 't' then some '\t'
             else if e = 'r' then some '\r'
             else if e = 'b' then some (Char.ofNat 8)
             else if e = 'f' then some (Char.ofNat 12)
             else none) with
      | some ch => (parseJStrChars rest).map fun q => (ch :: q.1, q.2)
      | none => none
  | c :: rest =>
      (parseJStrChars rest).map fun q => (c :: q.1, q.2)

/-- Split off a maximal run of decimal digits. -/
def takeDigits : List Char → List Char × List Char
  | [] => ([], [])
  | c :: rest =>
      if c.isDigit then
        let q := takeDigits rest
        (c :: q.1, q.2)
      else ([], c :: rest)

/-- Numeric value of a digit run. -/
def digitsToNat (ds : List Char) : Nat :=
  ds.foldl (fun n c => n * 10 + (c.toNat - 48)) 0

mutual

/-- Parse one JSON value (fuelled recursion; fuel bounds nesting depth). -/
def parseJVal : Nat → List Char → Option (JVal × List Char)
  | 0, _ => none
  | fuel + 1, cs =>
      match skipWs cs with
      | 'n' :: 'u' :: 'l' :: 'l' :: rest => some (.null, rest)
      | 't' :: 'r' :: 'u' :: 'e' :: rest => some (.bool true, rest)
      | 'f' :: 'a' :: 'l' :: 's' :: 'e' :: rest => some (.bool false, rest)
      | '"' :: rest =>
          (parseJStrChars rest).map fun q => (.str (String.mk q.1), q.2)
      | '[' :: rest =>
          (match skipWs rest with
           | ']' :: rest' => some (.arr [], rest')
           | cs' => (parseArrItems fuel cs').map fun q => (.arr q.1, q.2))
      | '\x7b' :: rest =>
          (match skipWs rest with
           | '\x7d' :: rest' => some (.obj [], rest')
           | cs' => (parseObjItems fuel cs').map fun q => (.obj (mergePairs [] q.1), q.2))
      | '-' :: rest =>
          (match takeDigits rest with
           | ([], _) => none
           | (ds, rest') =>
               if rest'.head? = some '.' ∨ rest'.head? = some 'e' ∨ rest'.head? = some 'E'
               then none
               else some (.num (-(digitsToNat ds : Int)), rest'))
      | c :: rest =>
          if c.isDigit then
            match takeDigits (c :: rest) with
            | (ds, rest') =>
                if rest'.head? = some '.' ∨ rest'.head? = some 'e' ∨ rest'.head? = some 'E'
                then none
                else some (.num (digitsToNat ds : Int), rest')
          else none
      | [] => none

/-- Parse the items of a non-empty JSON array (positioned at the first
item), including the closing bracket. -/
def parseArrItems : Nat → List Char → Option (List JVal × List Char)
  | 0, _ => none
  | fuel + 1, cs =>
      match parseJVal fuel cs with
      | none => none
      | some (v, rest) =>
          match skipWs rest with
          | ',' :: rest' =>
              (parseArrItems fuel rest').map fun q => (v :: q.1, q.2)
          | ']' :: rest' => some ([v], rest')
          | _ => none

/-- Parse the members of a non-empty JSON object (positioned at the first
key), including the closing brace. -/
def parseObjItems : Nat → List Char → Option (List (String × JVal) × List Char)
  | 0, _ => none
  | fuel + 1, cs =>
      match skipWs cs with
      | '"' :: rest =>
          (match parseJStrChars rest with
           | none => none
           | some (kcs, rest1) =>
               match skipWs rest1 with
               | ':' :: rest2 =>
                   (match parseJVal fuel rest2 with
                    | none => none
                    | some (v, rest3) =>
                        match skipWs rest3 with
                        | ',' :: rest4 =>
                            (parseObjItems fuel rest4).map fun q =>
                              ((String.mk kcs, v) :: q.1, q.2)
                        | '\x7d' :: rest4 => some ([(String.mk kcs, v)], rest4)
                        | _ => none)
               | _ => none)
      | _ => none

end

/-- Model of `JSON.parse`: `none` when the parse throws. -/
def jsonParse (s : String) : Option JVal :=
  match parseJVal (s.length + 1) s.toList with
  | some (v, rest) => if skipWs rest = [] then some v else none
  | none => none

/-! ### Calendar dates

`parseISODate` (src/app.js lines 21-26) builds `new Date(y, m-1, d, 12:00)`
and `isoFromDate` (lines 27-33) formats it back.  We represent a calendar
date by its civil day number (days since 1970-01-01), using the standard
civil-from-days / days-from-civil conversion; `Date`'s normalization of
out-of-range month/day arguments is the affine shift modelled in
`jsMakeDay`. -/

/-- Day number of a civil date with month in 1..12 (day may exceed the
month's length, as `Date` normalizes it by linear offset). -/
def daysFromCivil (y m d : Int) : Int :=
  let y1 := if m ≤ 2 then y - 1 else y
  let era := Int.fdiv y1 400
  let yoe := y1 - era * 400
  let mp := Int.emod (m + 9) 12
  let doy := Int.fdiv (153 * mp + 2) 5 + d - 1
  let doe := yoe * 365 + Int.fdiv yoe 4 - Int.fdiv yoe 100 + doy
  era * 146097 + doe - 719468

/-- Inverse of `daysFromCivil`: the (year, month, day) of a day number. -/
def civilFromDays (z0 : Int) : Int × Int × Int :=
  let z := z0 + 719468
  let era := Int.fdiv z 146097
  let doe := z - era * 146097
  let yoe := Int.fdiv (doe - Int.fdiv doe 1460 + Int.fdiv doe 36524 - Int.fdiv doe 146096) 365
  let y := yoe + era * 400
  let doy := doe - (365 * yoe + Int.fdiv yoe 4 - Int.fdiv yoe 100)
  let mp := Int.fdiv (5 * doy + 2) 153
  let d := doy - Int.fdiv (153 * mp + 2) 5 + 1
  let m := if mp < 10 then mp + 3 else mp - 9
  (if m ≤ 2 then y + 1 else y, m, d)

/-- Day number of `new Date(y, m - 1, d)`: JS normalizes the month index
into the year and offsets the day from the 1st. -/
def jsMakeDay (y m d : Int) : Int :=
  let mi := m - 1
  daysFromCivil (y + Int.fdiv mi 12) (Int.emod mi 12 + 1) d

/-- Trim ASCII whitespace from a character list on both ends (the `trim` of
the strings this app manipulates). -/
def charTrim (cs : List Char) : List Char :=
  ((cs.dropWhile isJsonWs).reverse.dropWhile isJsonWs).reverse

/-- String trim via `charTrim` (kernel-reducible model of `String.trim`). -/
def strTrim (s : String) : String :=
  String.mk (charTrim s.toList)

/-- Whether the string starts with the given character. -/
def headIsChar (s : String) (c : Char) : Bool :=
  s.toList.head? = some c

/-- Whether the string ends with the given character. -/
def lastIsChar (s : String) (c : Char) : Bool :=
  s.toList.getLast? = some c

/-- `s.startsWith("temp_")`: the reserved temporary-id marker check. -/
def isTempId (s : String) : Bool :=
  "temp_".toList.isPrefixOf s.toList

/-- Split a character list on a separator character, as `s.split(sep)`. -/
def splitOnChar (sep : Char) : List Char → List (List Char)
  | [] => [[]]
  | c :: rest =>
      let q := splitOnChar sep rest
      if c = sep then [] :: q
      else
        match q with
        | piece :: more => (c :: piece) :: more
        | [] => [[c]]

/-- JS `Number(s)` on the pieces `parseISODate` feeds it: the empty string
is 0, optionally signed decimal integers parse, anything else is `NaN`
(`none`).  The app's date strings only contain such pieces. -/
def jsNumInt (s : String) : Option Int :=
  let t := charTrim s.toList
  if t = [] then some 0
  else
    let (sgn, ds) : Int × List Char :=
      match t with
      | '-' :: rest => (-1, rest)
      | '+' :: rest => (1, rest)
      | l => (1, l)
    if ds ≠ [] ∧ ds.all Char.isDigit then some (sgn * (digitsToNat ds : Int))
    else none

/-- `Number` applied to a possibly-absent split piece (`undefined` is NaN). -/
def jsNumIntO (s : Option String) : Option Int :=
  match s with
  | none => none
  | some s => jsNumInt s

/-- `parseISODate` from src/app.js lines 21-26, returning the day number of
the resulting `Date` (or `none` for the `null` returns). -/
def parseISODate (s : String) : Option Int :=
  if s = "" then none
  else
    let parts := (splitOnChar '-' s.toList).map String.mk
    match jsNumIntO parts[0]?, jsNumIntO parts[1]?, jsNumIntO parts[2]? with
    | some y, some m, some d =>
        if y = 0 ∨ m = 0 ∨ d = 0 then none else some (jsMakeDay y m d)
    | _, _, _ => none

/-- `parseISODate` applied to a possibly-absent property value; the source
checks `!s || typeof s !== "string"` first. -/
def parseISODateV (v : Option JVal) : Option Int :=
  match v with
  | some (.str s) => parseISODate s
  | _ => none

/-- Two-digit padding as in `String(n).padStart(2, "0")`. -/
def pad2 (n : Int) : String :=
  if n < 10 then "0" ++ toString n else toString n

/-- `isoFromDate` from src/app.js lines 27-33 on a day number. -/
def isoFromDay (z : Int) : String :=
  match civilFromDays z with
  | (y, m, d) => toString y ++ "-" ++ pad2 m ++ "-" ++ pad2 d

example : parseISODate "2024-01-01" = some 19723 := by decide
example : isoFromDay 19724 = "2024-01-02" := by decide
example : parseISODate "2024-02-29" = some (19723 + 59) := by decide
example : isoFromDay (19723 + 60) = "2024-03-01" := by decide
example : jsonParse " \x7b\"a\": [1, -2, \"x\"], \"b\": null\x7d " =
    some (.obj [("a", .arr [.num 1, .num (-2), .str "x"]), ("b", .null)]) := by decide
example : jsonParse "\x7b\"a\":1" = none := by decide

/-! ### Overlays

`defaultOverlays` / `loadOverlays` from src/app.js lines 92-133.  The
nondeterministic `new Date().toISOString()` stamp is a parameter `now`.
`loadOverlays` reads the persisted string (`none` models an absent key) and
normalizes the parsed value; a parse failure or a property access on a
non-object falls into the `catch` and yields the default scaffold. -/

/-- The default `learning` sub-object (src/app.js lines 100-104). -/
def defaultLearningV : JVal :=
  .obj [("completion_log", .arr []), ("move_log", .arr []),
        ("stats", .obj [("moves", .num 0), ("completes", .num 0)])]

/-- `defaultOverlays()` (src/app.js lines 92-106). -/
def defaultOverlaysV (now : String) : JVal :=
  .obj [("version", .num 1), ("updated_at", .str now), ("deletions", .arr []),
        ("task_overrides", .obj []), ("new_tasks", .arr []),
        ("recurrence_overrides", .obj []), ("learning", defaultLearningV)]

/-- The explicit `deletions` field: `Array.isArray(obj.deletions) ?
obj.deletions : []`. -/
def loadDeletions (obj : JVal) : JVal :=
  match obj.get "deletions" with
  | some (.arr xs) => JVal.arr xs
  | _ => .arr []

/-- The explicit `new_tasks` field. -/
def loadNewTasks (obj : JVal) : JVal :=
  match obj.get "new_tasks" with
  | some (.arr xs) => JVal.arr xs
  | _ => .arr []

/-- The explicit `task_overrides` field: kept when a truthy object, else
`{}`. -/
def loadTaskOverrides (obj : JVal) : JVal :=
  match obj.get "task_overrides" with
  | some v => if v.truthy && v.isTypeofObject then v else .obj []
  | none => .obj []

/-- The explicit `recurrence_overrides` field. -/
def loadRecOverrides (obj : JVal) : JVal :=
  match obj.get "recurrence_overrides" with
  | some v => if v.truthy && v.isTypeofObject then v else .obj []
  | none => .obj []

/-- The explicit `learning` field: `{...defaultOverlays().learning,
...obj.learning}` when `obj.learning` is a truthy object, else the
default. -/
def loadLearning (obj : JVal) : JVal :=
  match obj.get "learning" with
  | some lv =>
      if lv.truthy && lv.isTypeofObject then
        JVal.obj (mergePairs (mergePairs [] (spreadPairs defaultLearningV)) (spreadPairs lv))
      else defaultLearningV
  | none => defaultLearningV

/-- The normalization step of `loadOverlays` (src/app.js lines 112-129):
the object literal `{...defaultOverlays(), ...obj, deletions: ...,
new_tasks: ..., task_overrides: ..., recurrence_overrides: ...,
learning: ...}`. -/
def loadOverlaysFromValue (now : String) (obj : JVal) : JVal :=
  let spread := mergePairs (mergePairs [] (spreadPairs (defaultOverlaysV now))) (spreadPairs obj)
  .obj (objUpsert (objUpsert (objUpsert (objUpsert (objUpsert
          spread "deletions" (loadDeletions obj))
          "new_tasks" (loadNewTasks obj))
          "task_overrides" (loadTaskOverrides obj))
          "recurrence_overrides" (loadRecOverrides obj))
          "learning" (loadLearning obj))

/-- `loadOverlays()` (src/app.js lines 107-133) as a function of the
persisted raw string (`none` = nothing stored). -/
def loadOverlays (now : String) (raw : Option String) : JVal :=
  match raw with
  | none => defaultOverlaysV now
  | some s =>
      if s = "" then defaultOverlaysV now
      else
        match jsonParse s with
        | none => defaultOverlaysV now
        | some obj => loadOverlaysFromValue now obj

/-! ### Typed overlay state

`state.overlays` is always produced by `loadOverlays`/`defaultOverlays`,
which guarantee that `deletions`/`new_tasks` are arrays and
`task_overrides`/`recurrence_overrides` are objects, and the app only ever
pushes string ids into `deletions`.  The mutating operations are modelled
over this typed shape (the data model of spec §3). -/

/-- The `learning` record with well-formed sub-fields. -/
structure LearningState where
  completion_log : List JVal
  move_log : List JVal
  moves : Int
  completes : Int
deriving Repr, DecidableEq

/-- The overlay record. -/
structure Overlays where
  deletions : List String
  task_overrides : List (String × JVal)
  new_tasks : List JVal
  recurrence_overrides : List (String × JVal)
  learning : LearningState
deriving Repr, DecidableEq

/-- The typed default overlay scaffold. -/
def defaultOverlaysT : Overlays :=
  { deletions := [], task_overrides := [], new_tasks := [],
    recurrence_overrides := [], learning := ⟨[], [], 0, 0⟩ }

/-- JS `list.slice(-n)`: the last `n` elements (all of them when shorter). -/
def takeLast (n : Nat) (l : List JVal) : List JVal :=
  l.drop (l.length - n)

/-- The completion-log entry `{id, completed, at: now}` pushed by
`logComplete`. -/
def completionEntry (now : String) (id : JVal) (completed : Bool) : JVal :=
  .obj [("id", id), ("completed", .bool completed), ("at", .str now)]

/-- `logComplete` from src/app.js lines 430-435. -/
def logComplete (now : String) (id : JVal) (completed : Bool) (st : LearningState) :
    LearningState :=
  { st with
    completes := st.completes + 1,
    completion_log := takeLast 400 (st.completion_log ++ [completionEntry now id completed]) }

/-- The move-log entry `{id, from, to, reason, at: now}` pushed by
`logMove`. -/
def moveEntry (now : String) (id fromV toV : JVal) (reason : String) : JVal :=
  .obj [("id", id), ("from", fromV), ("to", toV), ("reason", .str reason), ("at", .str now)]

/-- `logMove` from src/app.js lines 437-442. -/
def logMove (now : String) (id fromV toV : JVal) (reason : String) (st : LearningState) :
    LearningState :=
  { st with
    moves := st.moves + 1,
    move_log := takeLast 400 (st.move_log ++ [moveEntry now id fromV toV reason]) }

/-! ### Merge (src/app.js lines 141-165) -/

/-- The base dataset fields `mergeData` reads (other fields pass through
`{...base}` untouched and carry no invariants). -/
structure BaseData where
  tasks : JVal
  events : JVal
  recurrence_rules : JVal
deriving Repr, DecidableEq

/-- The parts of the merged view the claims concern. -/
structure MergedView where
  tasks : List JVal
  events : List JVal
  recurrence_rules : List JVal
deriving Repr, DecidableEq

/-- `Array.isArray(v) ? v : []`. -/
def asArray : JVal → List JVal
  | .arr xs => xs
  | _ => []

/-- `deletions.has(idv)` for the `Set` built from the overlay's (string)
deletions; `Set.has` uses SameValueZero, so only an identical string
matches. -/
def idDeleted (dels : List String) (idv : JVal) : Bool :=
  match idv with
  | .str s => dels.contains s
  | _ => false

/-- The filter `t && t.id && !deletions.has(t.id)` applied to base items,
also used for the `new_tasks` loop's `continue` conditions. -/
def keepItem (dels : List String) (t : JVal) : Bool :=
  t.truthy &&
    (match t.get "id" with
     | some iv => iv.truthy && !(idDeleted dels iv)
     | none => false)

/-- The property read `overrides[t.id]`: the id value is coerced to a
property key (`String(undefined)` is `"undefined"`). -/
def overrideFor (ov : List (String × JVal)) (t : JVal) : Option JVal :=
  match t.get "id" with
  | some iv => lookupKV ov (jsToStr iv)
  | none => lookupKV ov "undefined"

/-- `overrides[t.id] ? {...t, ...overrides[t.id]} : t` (src/app.js lines
153-154). -/
def applyOverride (ov : List (String × JVal)) (t : JVal) : JVal :=
  match overrideFor ov t with
  | some p => if p.truthy then jsSpread2 t p else t
  | none => t

/-- `mergeData` from src/app.js lines 141-165: filter deletions out of base
tasks/events, apply `task_overrides` patches to both, append surviving
`new_tasks`, and pass `recurrence_rules` through. -/
def mergeData (base : BaseData) (ovl : Overlays) : MergedView :=
  let baseTasks := asArray base.tasks
  let baseEvents := asArray base.events
  let recRules := asArray base.recurrence_rules
  let tasks0 := (baseTasks.filter (keepItem ovl.deletions)).map (applyOverride ovl.task_overrides)
  let events0 := (baseEvents.filter (keepItem ovl.deletions)).map (applyOverride ovl.task_overrides)
  let appended := ovl.new_tasks.filter (keepItem ovl.deletions)
  { tasks := tasks0 ++ appended, events := events0, recurrence_rules := recRules }

/-- The per-rule enabled resolution `overrides[r.id]?.enabled ?? true` from
`renderRecurring` (src/app.js line 551). -/
def ruleEnabled (rov : List (String × JVal)) (r : JVal) : JVal :=
  match overrideFor rov r with
  | none => .bool true
  | some .null => .bool true
  | some o =>
      match o.get "enabled" with
      | none => .bool true
      | some .null => .bool true
      | some w => w

/-! ### Payload validation (src/unnamed/part_000 lines 4-17) -/

/-- Result of `validatePayload`: `{ok: true}` or `{ok: false, error}`. -/
inductive VRes where
  | ok
  | err (msg : String)
deriving Repr, DecidableEq

/-- The five allowed op kinds. -/
def allowedOps : List String := ["add", "update", "complete", "undo_complete", "delete"]

/-- String rendering of `op.op` inside the template literal
`Unsupported op: ...` (`undefined` renders as "undefined"). -/
def renderOpKind (v : Option JVal) : String :=
  match v with
  | none => "undefined"
  | some w => jsToStr w

/-- The body of the `for (const op of payload.ops)` loop of
`validatePayload` (lines 8-15): the first failing check for one op, if any.
Each op must be a non-null object, carry a kind from the fixed set and a
non-empty string id, and for add/update a truthy object `fields`. -/
def opViolation (op : JVal) : Option String :=
  if !(op.truthy && op.isTypeofObject) then some "Bad op object"
  else if !(match op.get "op" with
            | some (.str s) => allowedOps.contains s
            | _ => false) then
    some ("Unsupported op: " ++ renderOpKind (op.get "op"))
  else if !(match op.get "id" with
            | some (.str s) => s != ""
            | _ => false) then
    some "Op missing id"
  else if (match op.get "op" with
           | some (.str s) => s == "add" || s == "update"
           | _ => false) &&
          !(truthyO (op.get "fields") &&
            (match op.get "fields" with
             | some f => f.isTypeofObject
             | none => false)) then
    some "add/update must include fields\x7b\x7d"
  else none

/-- The loop itself: return `{ok: false}` with the first violation, else
continue; `{ok: true}` after the last op. -/
def validateOps : List JVal → VRes
  | [] => .ok
  | op :: rest =>
      match opViolation op with
      | some e => .err e
      | none => validateOps rest

/-- `validatePayload` from src/unnamed/part_000 lines 4-17. -/
def validatePayload (payload : JVal) : VRes :=
  if !(payload.truthy && payload.isTypeofObject) then .err "Not an object"
  else
    match payload.get "ops" with
    | some (.arr ops) => validateOps ops
    | _ => .err "Missing ops\x5b\x5d"

/-! ### Op application (src/app.js lines 1093-1148)

`applyOpsArray` mutates `state.overlays` per op and returns `ops.length`.
The nondeterministic inputs are parameters: `now` for the timestamps and
`fresh` for the synthesized temporary ids (`temp_` + timestamp + random
suffix in the source), indexed by a per-batch counter.  The callers only
reach it with payloads that passed `validatePayload`, so every op is an
object with a non-empty string id; the model's total fall-through branches
for other shapes mirror the JS property semantics. -/

/-- `normalizeType` from src/app.js lines 61-66: lowercase and trim the
(string) type.  Note both the `!v` branch and the final fall-through return
`v` itself, so an unrecognized non-empty type is returned unchanged and the
membership test on line 64 has no effect.  The argument is the possibly
absent `fields.type`; a truthy non-string would throw in JS (the app never
produces one) and is coerced here. -/
def normalizeType (t : Option JVal) : String :=
  let raw := match t with
    | some w => if w.truthy then jsToStr w else ""
    | none => ""
  let v := String.mk (charTrim (raw.toList.map Char.toLower))
  if v = "" then ""
  else if v = "event" ∨ v = "meeting" ∨ v = "task" then v
  else v

/-- The new-task object built by the `add` branch (src/app.js lines
1097-1117).  Keys assigned `undefined` in the literal (`subtasks` when not
an array, nullish `estimated_minutes`/`energy`) are modelled as absent. -/
def buildAddTask (freshId : String) (o : JVal) : JVal :=
  let f := jsOrV (o.get "fields") (.obj [])
  let idv := match o.get "id" with
    | some (.str s) => if isTempId s then s else freshId
    | _ => freshId
  let core : List (String × JVal) :=
    [("id", .str idv),
     ("title", .str (safeTextV (jsOrV (f.get "title") (.str "Untitled")))),
     ("type", .str (let nt := normalizeType (f.get "type"); if nt = "" then "task" else nt)),
     ("pillar", nullishV (f.get "pillar") .null),
     ("owner_id", nullishV (f.get "owner_id") .null),
     ("start_date", nullishV (f.get "start_date") .null),
     ("due_date", nullishV (f.get "due_date") .null),
     ("priority", nullishV (f.get "priority") (.num 2)),
     ("notes", .str (safeTextV (jsOrV (f.get "notes") (.str ""))))]
  let st := match f.get "subtasks" with
    | some (.arr xs) => [("subtasks", JVal.arr xs)]
    | _ => []
  let em := match f.get "estimated_minutes" with
    | some .null => []
    | some v => [("estimated_minutes", v)]
    | none => []
  let en := match f.get "energy" with
    | some .null => []
    | some v => [("energy", v)]
    | none => []
  .obj (core ++ st ++ em ++ en)

/-- `ensurePatch` from src/app.js lines 425-428: return the existing patch
for `key` (creating `{}` first when absent or falsy). -/
def ensurePatch (tov : List (String × JVal)) (key : String) :
    JVal × List (String × JVal) :=
  match lookupKV tov key with
  | some p => if p.truthy then (p, tov) else (.obj [], objUpsert tov key (.obj []))
  | none => (.obj [], objUpsert tov key (.obj []))

/-- The property key `String(o.id)` used by `ensurePatch(o.id)` /
`delete task_overrides[o.id]`. -/
def opIdKey (o : JVal) : String :=
  match o.get "id" with
  | some iv => jsToStr iv
  | none => "undefined"

/-- One iteration of the `for (const o of ops)` loop of `applyOpsArray`;
the counter feeds the fresh temp-id source for `add`. -/
def applyOp (now : String) (fresh : Nat → String) (st : Overlays × Nat) (o : JVal) :
    Overlays × Nat :=
  let (ovl, ctr) := st
  match o.get "op" with
  | some (.str "add") =>
      ({ ovl with new_tasks := ovl.new_tasks ++ [buildAddTask (fresh ctr) o] }, ctr + 1)
  | some (.str "update") =>
      let key := opIdKey o
      let (p0, tov1) := ensurePatch ovl.task_overrides key
      let p1 := JVal.obj (mergePairs (mergePairs [] (spreadPairs p0))
                            (spreadPairs (jsOrV (o.get "fields") (.obj []))))
      ({ ovl with task_overrides := objUpsert tov1 key p1 }, ctr)
  | some (.str "complete") =>
      let key := opIdKey o
      let (p0, tov1) := ensurePatch ovl.task_overrides key
      let p1 := JVal.obj (objUpsert (objUpsert (mergePairs [] (spreadPairs p0))
                  "status" (.str "completed")) "completed_at" (.str now))
      let lrn := logComplete now ((o.get "id").getD .null) true ovl.learning
      ({ ovl with task_overrides := objUpsert tov1 key p1, learning := lrn }, ctr)
  | some (.str "undo_complete") =>
      let key := opIdKey o
      let (p0, tov1) := ensurePatch ovl.task_overrides key
      let p1 := JVal.obj (objUpsert (objUpsert (mergePairs [] (spreadPairs p0))
                  "status" (.str "open")) "completed_at" .null)
      let lrn := logComplete now ((o.get "id").getD .null) false ovl.learning
      ({ ovl with task_overrides := objUpsert tov1 key p1, learning := lrn }, ctr)
  | some (.str "delete") =>
      let dels := match o.get "id" with
        | some (.str s) => if ovl.deletions.contains s then ovl.deletions else ovl.deletions ++ [s]
        | _ => ovl.deletions
      let tov := ovl.task_overrides.filter fun p => p.1 ≠ opIdKey o
      let nts := ovl.new_tasks.filter fun t => t.get "id" ≠ o.get "id"
      ({ ovl with deletions := dels, task_overrides := tov, new_tasks := nts }, ctr)
  | _ => (ovl, ctr)

/-- `applyOpsArray` from src/app.js lines 1093-1148, returning the updated
overlay and the returned count. -/
def applyOpsArray (now : String) (fresh : Nat → String) (ovl : Overlays) (ops : List JVal) :
    Overlays × Nat :=
  if ops.isEmpty then (ovl, 0)
  else
    let r := ops.foldl (applyOp now fresh) (ovl, 0)
    (r.1, ops.length)

/-- The `runOps` pipeline's effect on the overlay for a payload that has
already been extracted from the model response: when `validatePayload`
fails, `runOps` throws before any op is applied (the caller's `catch`
leaves the overlay untouched); otherwise the ops reach `applyOpsArray`. -/
def runValidatedOps (now : String) (fresh : Nat → String) (ovl : Overlays) (payload : JVal) :
    Overlays :=
  match validatePayload payload with
  | .err _ => ovl
  | .ok =>
      (applyOpsArray now fresh ovl
        (match payload.get "ops" with
         | some (.arr ops) => ops
         | _ => [])).1

/-! ### Auto-apply classifier (src/app.js lines 1167-1219) -/

/-- The fixed allowlist of auto-applicable update fields. -/
def safeFieldsAllow : List String :=
  ["title", "notes", "pillar", "owner_id", "priority", "type", "estimated_minutes", "energy"]

/-- The classification loop of `splitAiOpsForAutoApply`: non-object entries
are skipped (`continue`), non-updates / temp-or-non-string ids /
date-or-subtask keys / non-allowlisted keys go to review, the rest to
auto. -/
def splitLoop : List JVal → List JVal × List JVal
  | [] => ([], [])
  | op :: rest =>
      let q := splitLoop rest
      if !(op.truthy && op.isTypeofObject) then q
      else if op.get "op" ≠ some (.str "update") then (q.1, op :: q.2)
      else if !(match op.get "id" with
                | some (.str s) => !isTempId s
                | _ => false) then (q.1, op :: q.2)
      else
        let fields := jsOrV (op.get "fields") (.obj [])
        let keys := jsKeys fields
        if keys.contains "start_date" || keys.contains "due_date" || keys.contains "subtasks" then
          (q.1, op :: q.2)
        else if !(keys.all fun k => safeFieldsAllow.contains k) then (q.1, op :: q.2)
        else (op :: q.1, q.2)

/-- `splitAiOpsForAutoApply` from src/app.js lines 1167-1219. -/
def splitAiOpsForAutoApply (payload : JVal) : List JVal × List JVal :=
  let ops := match payload.get "ops" with
    | some (.arr xs) => xs
    | _ => []
  splitLoop ops

/-! ### Defer by one day (src/app.js lines 489-509) -/

/-- The date source `patch.due_date || item.due_date || patch.start_date
|| item.start_date` of `deferOneDay` (src/app.js line 495). -/
def deferSelect (patch0 item : JVal) : Option JVal :=
  firstTruthy4 (patch0.get "due_date") (item.get "due_date")
    (patch0.get "start_date") (item.get "start_date")

/-- The `nextISO` computed by `deferOneDay` (lines 496-500): the selected
date — or today when none parses — advanced by one calendar day. -/
def deferNextISO (todayDay : Int) (patch0 item : JVal) : String :=
  isoFromDay ((match parseISODateV (deferSelect patch0 item) with
               | some n => n
               | none => todayDay) + 1)

/-- The patch object after `patch.due_date = nextISO` (line 501). -/
def deferP1 (todayDay : Int) (patch0 item : JVal) : List (String × JVal) :=
  objUpsert (mergePairs [] (spreadPairs patch0)) "due_date"
    (.str (deferNextISO todayDay patch0 item))

/-- The patch object after the conditional
`if (!patch.start_date) patch.start_date = nextISO` (line 502). -/
def deferPatch (todayDay : Int) (patch0 item : JVal) : List (String × JVal) :=
  if truthyO (lookupKV (deferP1 todayDay patch0 item) "start_date") then
    deferP1 todayDay patch0 item
  else
    objUpsert (deferP1 todayDay patch0 item) "start_date"
      (.str (deferNextISO todayDay patch0 item))

/-- The `before` snapshot logged by `deferOneDay` (line 499). -/
def deferBefore (patch0 item : JVal) : JVal :=
  .obj [("start_date", nullishV (patch0.get "start_date")
           (nullishV (item.get "start_date") .null)),
        ("due_date", nullishV (patch0.get "due_date")
           (nullishV (item.get "due_date") .null))]

/-- The `to` snapshot logged by `deferOneDay` (line 503): the patch's dates
after the writes. -/
def deferAfter (todayDay : Int) (patch0 item : JVal) : JVal :=
  .obj [("start_date", nullishV (lookupKV (deferPatch todayDay patch0 item) "start_date") .null),
        ("due_date", nullishV (lookupKV (deferPatch todayDay patch0 item) "due_date") .null)]

/-- The body of `deferOneDay` once the item has been found (src/app.js
lines 494-508): take the patch (created on demand), pick
`patch.due_date || item.due_date || patch.start_date || item.start_date`,
advance its parsed date (or today when none parses) by one day, write the
result to the patch's `due_date` — and to `start_date` when no truthy
patched start exists — and log the move. -/
def deferOneDayFound (now : String) (todayDay : Int) (item : JVal)
    (ovl : Overlays) (id : String) : Overlays :=
  let patch0 := (ensurePatch ovl.task_overrides id).1
  { ovl with
    task_overrides := objUpsert ((ensurePatch ovl.task_overrides id).2) id
      (.obj (deferPatch todayDay patch0 item)),
    learning := logMove now (.str id) (deferBefore patch0 item)
      (deferAfter todayDay patch0 item) "defer_1d" ovl.learning }

/-- `deferOneDay` from src/app.js lines 489-509 over the typed overlay.
`mergedTasks` is `state.merged.tasks`; `todayDay` is the day number of
`parseISODate(todayLocalISO())` and `now` the ISO timestamp for the log
entry.  The function is a no-op when no merged task carries the id. -/
def deferOneDay (now : String) (todayDay : Int) (mergedTasks : List JVal)
    (ovl : Overlays) (id : String) : Overlays :=
  match mergedTasks.find? (fun t => t.get "id" = some (.str id)) with
  | none => ovl
  | some item => deferOneDayFound now todayDay item ovl id

/-! ### Model-response JSON extraction (src/unnamed/part_001 lines 165-175) -/

/-- The span matched by the greedy regex `\x7b[\s\S]*\x7d`: from the first
`\x7b` to the last `\x7d` of the text, when the latter comes after the
former. -/
def greedyBraceSpan (txt : String) : Option String :=
  let cs := txt.toList
  match cs.findIdx? (fun c => c = '\x7b'), cs.reverse.findIdx? (fun c => c = '\x7d') with
  | some i, some jr =>
      let j := cs.length - 1 - jr
      if i < j then some (String.mk ((cs.drop i).take (j - i + 1))) else none
  | _, _ => none

/-- `tryParseJsonFromText` from src/unnamed/part_001 lines 165-175: parse
the trimmed text when it is brace-delimited, otherwise (or when that parse
throws) parse the greedy brace span of the raw text. -/
def tryParseJsonFromText (txt : String) : Option JVal :=
  let direct := strTrim txt
  let viaRegex := match greedyBraceSpan txt with
    | some s => jsonParse s
    | none => none
  if headIsChar direct '\x7b' && lastIsChar direct '\x7d' then
    match jsonParse direct with
    | some v => some v
    | none => viaRegex
  else viaRegex

/-- Modelled from the claim wording of C9: the first balanced
`\x7b...\x7d` object embedded in the text, by depth counting from the first
opening brace. -/
def balancedFrom : List Char → Nat → List Char → Option (List Char)
  | [], _, _ => none
  | c :: rest, depth, acc =>
      if c = '\x7b' then balancedFrom rest (depth + 1) (acc ++ [c])
      else if c = '\x7d' then
        match depth with
        | 0 => none
        | 1 => some (acc ++ [c])
        | d + 1 => balancedFrom rest d (acc ++ [c])
      else balancedFrom rest depth (acc ++ [c])

/-- Modelled from the claim wording of C9: the first balanced object
substring of the text. -/
def firstBalancedSpan (txt : String) : Option String :=
  (balancedFrom (txt.toList.dropWhile fun c => c ≠ '\x7b') 0 []).map String.mk

/-! ### Shared lookup lemmas -/

theorem lookupKV_mem {l : List (String × JVal)} {k : String} {v : JVal}
    (h : lookupKV l k = some v) : (k, v) ∈ l := by
  induction l with
  | nil => simp [lookupKV] at h
  | cons p rest ih =>
      obtain ⟨pk, pv⟩ := p
      by_cases hp : pk = k
      · simp only [lookupKV] at h
        rw [if_pos hp] at h
        cases h
        subst hp
        exact List.mem_cons_self _ _
      · simp only [lookupKV] at h
        rw [if_neg hp] at h
        exact List.mem_cons_of_mem _ (ih h)

theorem lastBind_mem {l : List (String × JVal)} {k : String} {v : JVal}
    (h : lastBind l k = some v) : (k, v) ∈ l := by
  unfold lastBind at h
  cases hf : (l.reverse.find? fun p => p.1 = k) with
  | none => rw [hf] at h; cases h
  | some q =>
      rw [hf] at h
      cases h
      have hq := List.find?_some hf
      have hm := List.mem_of_find?_eq_some hf
      rw [List.mem_reverse] at hm
      have : q.1 = k := by simpa using hq
      cases q
      simp_all

/-! ### Claim C3: payload validation -/

/-- Modelled from the claim wording of C3: the first structural violation of
a suggestion payload, scanning the checks in the order the claim lists them
(payload object, ops array, op object, op kind, id, fields). -/
def specOpViolation (op : JVal) : Option String :=
  if !(op.truthy && op.isTypeofObject) then some "Bad op object"
  else if !(match op.get "op" with
            | some (.str s) => allowedOps.contains s
            | _ => false) then
    some ("Unsupported op: " ++ renderOpKind (op.get "op"))
  else if !(match op.get "id" with
            | some (.str s) => s != ""
            | _ => false) then
    some "Op missing id"
  else if (match op.get "op" with
           | some (.str s) => s == "add" || s == "update"
           | _ => false) &&
          !(truthyO (op.get "fields") &&
            (match op.get "fields" with
             | some f => f.isTypeofObject
             | none => false)) then
    some "add/update must include fields\x7b\x7d"
  else none

/-- Modelled from the claim wording of C3: first violation across the ops
list, in order. -/
def specOpsViolation : List JVal → Option String
  | [] => none
  | op :: rest =>
      match specOpViolation op with
      | some e => some e
      | none => specOpsViolation rest

/-- Modelled from the claim wording of C3: first violation of the whole
payload. -/
def specFirstViolation (payload : JVal) : Option String :=
  if !(payload.truthy && payload.isTypeofObject) then some "Not an object"
  else
    match payload.get "ops" with
    | some (.arr ops) => specOpsViolation ops
    | _ => some "Missing ops\x5b\x5d"

theorem specOpViolation_eq_code (op : JVal) : specOpViolation op = opViolation op := by
  rfl

theorem validateOps_eq_spec (ops : List JVal) :
    validateOps ops =
      (match specOpsViolation ops with
       | some e => VRes.err e
       | none => VRes.ok) := by
  induction ops with
  | nil => rfl
  | cons op rest ih =>
      show (match opViolation op with
            | some e => VRes.err e
            | none => validateOps rest) = _
      unfold specOpsViolation
      rw [specOpViolation_eq_code]
      cases opViolation op with
      | some e => rfl
      | none => exact ih

theorem validatePayload_eq_spec (payload : JVal) :
    validatePayload payload =
      (match specFirstViolation payload with
       | some e => VRes.err e
       | none => VRes.ok) := by
  unfold validatePayload specFirstViolation
  split
  · rfl
  · split
    · exact validateOps_eq_spec _
    · rfl

/-- C3: a suggestion payload violating any of the structural checks is
rejected with the first violation encountered (in the claim's listed order,
with the source's error messages), and the overlay is left completely
unchanged: the `runOps` pipeline throws before any op is applied. -/
theorem c3_validation_rejects_first_violation
    (payload : JVal) (e : String) (now : String) (fresh : Nat → String) (ovl : Overlays)
    (h : specFirstViolation payload = some e) :
    validatePayload payload = .err e ∧
    runValidatedOps now fresh ovl payload = ovl := by
  have hv : validatePayload payload = .err e := by
    rw [validatePayload_eq_spec, h]
  refine ⟨hv, ?_⟩
  unfold runValidatedOps
  rw [hv]

/-- Witness for C3 at a concrete malformed payload (bad op kind in second
position, after a well-formed op whose effects must not be applied). -/
theorem c3_validation_witness :
    validatePayload (.obj [("ops", .arr
        [.obj [("op", .str "delete"), ("id", .str "a")],
         .obj [("op", .str "frobnicate"), ("id", .str "b")]])]) =
      .err "Unsupported op: frobnicate" ∧
    runValidatedOps "T" (fun _ => "temp_f") defaultOverlaysT
        (.obj [("ops", .arr
          [.obj [("op", .str "delete"), ("id", .str "a")],
           .obj [("op", .str "frobnicate"), ("id", .str "b")]])]) =
      defaultOverlaysT :=
  c3_validation_rejects_first_violation _ _ "T" (fun _ => "temp_f") defaultOverlaysT (by decide)

/-! ### Claim C5: bounded completion log -/

/-- A complete/undo_complete event: the logged id, the completed flag, and
the timestamp at which it is logged. -/
def applyCompletes (evs : List (JVal × Bool × String)) (st : LearningState) : LearningState :=
  evs.foldl (fun s e => logComplete e.2.2 e.1 e.2.1 s) st

/-- The completion-log entry of an event. -/
def entryOfEv (e : JVal × Bool × String) : JVal :=
  completionEntry e.2.2 e.1 e.2.1

theorem takeLast_length_le (n : Nat) (l : List JVal) : (takeLast n l).length ≤ n := by
  unfold takeLast
  rw [List.length_drop]
  omega

theorem takeLast_of_length_le (n : Nat) (l : List JVal) (h : l.length ≤ n) :
    takeLast n l = l := by
  unfold takeLast
  have : l.length - n = 0 := by omega
  simp [this]

theorem takeLast_takeLast_append (n : Nat) (xs ys : List JVal) :
    takeLast n (takeLast n xs ++ ys) = takeLast n (xs ++ ys) := by
  by_cases h : xs.length ≤ n
  · rw [takeLast_of_length_le n xs h]
  · push_neg at h
    unfold takeLast
    have hk : xs.length - n ≤ xs.length := Nat.sub_le _ _
    rw [← List.drop_append_of_le_length hk, List.drop_drop]
    congr 1
    simp only [List.length_drop, List.length_append]
    omega

theorem applyCompletes_spec (evs : List (JVal × Bool × String)) (st : LearningState)
    (h : st.completion_log.length ≤ 400) :
    (applyCompletes evs st).completion_log =
      takeLast 400 (st.completion_log ++ evs.map entryOfEv) ∧
    (applyCompletes evs st).completes = st.completes + evs.length := by
  induction evs generalizing st with
  | nil =>
      simp only [applyCompletes, List.foldl_nil, List.map_nil, List.append_nil,
        List.length_nil]
      exact ⟨(takeLast_of_length_le 400 _ h).symm, by omega⟩
  | cons e rest ih =>
      have hstep : applyCompletes (e :: rest) st =
          applyCompletes rest (logComplete e.2.2 e.1 e.2.1 st) := by
        simp [applyCompletes]
      have hlen : (logComplete e.2.2 e.1 e.2.1 st).completion_log.length ≤ 400 :=
        takeLast_length_le 400 _
      have hr := ih (logComplete e.2.2 e.1 e.2.1 st) hlen
      rw [hstep]
      constructor
      · rw [hr.1]
        show takeLast 400 (takeLast 400 (st.completion_log ++ [entryOfEv e]) ++ rest.map entryOfEv) = _
        rw [takeLast_takeLast_append]
        simp
      · rw [hr.2]
        show st.completes + 1 + (rest.length : Int) = _
        simp only [List.length_cons]
        push_cast
        ring

/-- C5: over any sequence of complete/undo_complete events (each of which
calls `logComplete`), the completion log always holds the most recent
entries up to the 400 bound (oldest dropped first), never exceeds 400
entries, and the completes counter is incremented once per logged event;
after 500 events the log is exactly the last 400 entries in append order. -/
theorem c5_audit_bound (st : LearningState) (evs : List (JVal × Bool × String))
    (h : st.completion_log.length ≤ 400) :
    (applyCompletes evs st).completion_log =
      takeLast 400 (st.completion_log ++ evs.map entryOfEv) ∧
    (applyCompletes evs st).completion_log.length ≤ 400 ∧
    (applyCompletes evs st).completes = st.completes + evs.length ∧
    (evs.length = 500 →
      (applyCompletes evs st).completion_log = (evs.map entryOfEv).drop 100 ∧
      (applyCompletes evs st).completion_log.length = 400) := by
  obtain ⟨h1, h2⟩ := applyCompletes_spec evs st h
  refine ⟨h1, ?_, h2, ?_⟩
  · rw [h1]; exact takeLast_length_le 400 _
  · intro h500
    have hmlen : (evs.map entryOfEv).length = 500 := by simp [h500]
    have hlog : (applyCompletes evs st).completion_log = (evs.map entryOfEv).drop 100 := by
      rw [h1]
      unfold takeLast
      have hidx : (st.completion_log ++ evs.map entryOfEv).length - 400 =
          st.completion_log.length + 100 := by
        rw [List.length_append, hmlen]
        omega
      rw [hidx, List.drop_append]
    refine ⟨hlog, ?_⟩
    rw [hlog, List.length_drop, hmlen]

/-- Witness for C5: 500 completion events on a fresh overlay leave a log of
exactly 400 entries and a counter of 500. -/
theorem c5_audit_bound_witness :
    (applyCompletes (List.replicate 500 (JVal.str "x", true, "T")) ⟨[], [], 0, 0⟩).completion_log.length = 400 ∧
    (applyCompletes (List.replicate 500 (JVal.str "x", true, "T")) ⟨[], [], 0, 0⟩).completes = 500 := by
  have h := c5_audit_bound ⟨[], [], 0, 0⟩ (List.replicate 500 (JVal.str "x", true, "T")) (by decide)
  refine ⟨(h.2.2.2 (by simp)).2, ?_⟩
  have := h.2.2.1
  simpa using this

/-! ### Claim C7: type normalization on add -/

/-- C7 (code bug evaluation): `normalizeType` keeps an unrecognized
non-empty type as its lowercased trimmed self instead of defaulting, so an
`add` op with `fields.type = " Banana "` creates an item whose type is
"banana", not "task".  The recognition check on line 64 of src/app.js is
dead code (both branches return `v`), which together with the
`normalizeType(...) || "task"` call sites shows the intended behavior was
to default unrecognized types to "task". -/
theorem c7_normalize_type_code_eval :
    normalizeType (some (.str " Banana ")) = "banana" ∧
    ((applyOpsArray "T" (fun _ => "temp_f") defaultOverlaysT
        [.obj [("op", .str "add"), ("id", .str "temp_a"),
               ("fields", .obj [("title", .str "X"), ("type", .str " Banana ")])]]).1.new_tasks.map
      (fun t => t.get "type")) = [some (.str "banana")] := by
  decide

/-! ### Claim C2: auto-apply classifier -/

/-- Modelled from the claim wording of C2: the net auto-apply predicate
`op === "update" ∧ id is a non-temp string ∧ fields.keys ⊆ allowlist`. -/
def autoPredClaim (op : JVal) : Bool :=
  (op.get "op" == some (.str "update")) &&
  (match op.get "id" with
   | some (.str s) => !isTempId s
   | _ => false) &&
  ((jsKeys (jsOrV (op.get "fields") (.obj []))).all fun k => safeFieldsAllow.contains k)

/-- The C2 claim as stated: for EVERY input list of ops, the classifier
partitions it by the net predicate, preserving relative order, with every
non-auto op landing in `reviewOps`. -/
def C2_claim : Prop :=
  ∀ ops : List JVal,
    splitAiOpsForAutoApply (.obj [("ops", .arr ops)]) =
      (ops.filter autoPredClaim, ops.filter fun op => !autoPredClaim op)

/-- C2 counterexample: a non-object entry (the number 5) is skipped by the
`continue` on line 1184 and lands in NEITHER bucket, so the claim's "every
other op of the input lands in reviewOps" fails. -/
theorem c2_classifier_counterexample : ¬ C2_claim := by
  intro h
  exact absurd (h [JVal.num 5]) (by decide)

theorem splitAiOps_on_ops (ops : List JVal) :
    splitAiOpsForAutoApply (.obj [("ops", .arr ops)]) = splitLoop ops := by
  rfl

theorem keys_mem_allow_of_all {keys : List String}
    (hall : (keys.all fun k' => safeFieldsAllow.contains k') = true) :
    ∀ k ∈ keys, k ∈ safeFieldsAllow := by
  intro k hk
  rw [List.all_eq_true] at hall
  exact List.mem_of_elem_eq_true (hall k hk)

theorem contains_false_of_all {keys : List String} (k : String)
    (hall : (keys.all fun k' => safeFieldsAllow.contains k') = true)
    (hk : k ∉ safeFieldsAllow) : keys.contains k = false := by
  rw [Bool.eq_false_iff]
  intro hc
  exact hk (keys_mem_allow_of_all hall k (List.mem_of_elem_eq_true hc))

/-- One step of the classification loop on a non-null object entry: it is
routed by exactly the claim's net auto-apply predicate. -/
theorem splitLoop_cons_obj (op : JVal) (rest : List JVal)
    (hot : op.truthy = true) (hoo : op.isTypeofObject = true) :
    splitLoop (op :: rest) =
      if autoPredClaim op
      then (op :: (splitLoop rest).1, (splitLoop rest).2)
      else ((splitLoop rest).1, op :: (splitLoop rest).2) := by
  have hstep : splitLoop (op :: rest) =
      (if !(op.truthy && op.isTypeofObject) then splitLoop rest
       else if op.get "op" ≠ some (.str "update") then
         ((splitLoop rest).1, op :: (splitLoop rest).2)
       else if !(match op.get "id" with
                 | some (.str s) => !isTempId s
                 | _ => false) then ((splitLoop rest).1, op :: (splitLoop rest).2)
       else if (jsKeys (jsOrV (op.get "fields") (.obj []))).contains "start_date" ||
               (jsKeys (jsOrV (op.get "fields") (.obj []))).contains "due_date" ||
               (jsKeys (jsOrV (op.get "fields") (.obj []))).contains "subtasks" then
         ((splitLoop rest).1, op :: (splitLoop rest).2)
       else if !((jsKeys (jsOrV (op.get "fields") (.obj []))).all fun k =>
                 safeFieldsAllow.contains k) then
         ((splitLoop rest).1, op :: (splitLoop rest).2)
       else (op :: (splitLoop rest).1, (splitLoop rest).2)) := rfl
  have hobj : (!(op.truthy && op.isTypeofObject)) = false := by
    rw [hot, hoo]; rfl
  rw [hstep, hobj]
  by_cases hu : op.get "op" = some (.str "update")
  case neg =>
    have hpred : autoPredClaim op = false := by
      unfold autoPredClaim
      rw [Bool.eq_false_iff]
      intro hc
      rw [Bool.and_eq_true, Bool.and_eq_true, beq_iff_eq] at hc
      exact hu hc.1.1
    simp only [Bool.false_eq_true, if_false, if_pos hu, hpred]
  case pos =>
    rw [if_neg (not_not_intro hu)]
    by_cases hid : (match op.get "id" with
                    | some (.str s) => !isTempId s
                    | _ => false) = true
    case neg =>
      have hid' : (match op.get "id" with
                   | some (.str s) => !isTempId s
                   | _ => false) = false := Bool.eq_false_iff.mpr hid
      have hpred : autoPredClaim op = false := by
        unfold autoPredClaim
        rw [Bool.eq_false_iff]
        intro hc
        rw [Bool.and_eq_true, Bool.and_eq_true] at hc
        rw [hc.1.2] at hid'
        cases hid'
      rw [hid']
      simp only [Bool.false_eq_true, if_false, Bool.not_false, if_true, hpred]
    case pos =>
      rw [hid]
      by_cases hall : ((jsKeys (jsOrV (op.get "fields") (.obj []))).all
          fun k => safeFieldsAllow.contains k) = true
      case pos =>
        have hsd := contains_false_of_all "start_date" hall (by decide)
        have hdd := contains_false_of_all "due_date" hall (by decide)
        have hst := contains_false_of_all "subtasks" hall (by decide)
        have hpred : autoPredClaim op = true := by
          unfold autoPredClaim
          rw [hu, hid, hall]
          rfl
        rw [hsd, hdd, hst, hall]
        simp only [Bool.not_true, Bool.false_eq_true, if_false, Bool.or_self, hpred, if_true]
      case neg =>
        have hall' : ((jsKeys (jsOrV (op.get "fields") (.obj []))).all
            fun k => safeFieldsAllow.contains k) = false := Bool.eq_false_iff.mpr hall
        have hpred : autoPredClaim op = false := by
          unfold autoPredClaim
          rw [Bool.eq_false_iff]
          intro hc
          rw [Bool.and_eq_true, Bool.and_eq_true] at hc
          rw [hc.2] at hall'
          cases hall'
        rw [hall']
        by_cases hdk : ((jsKeys (jsOrV (op.get "fields") (.obj []))).contains "start_date" ||
            (jsKeys (jsOrV (op.get "fields") (.obj []))).contains "due_date" ||
            (jsKeys (jsOrV (op.get "fields") (.obj []))).contains "subtasks") = true
        · simp only [Bool.not_true, Bool.false_eq_true, if_false, if_pos hdk, hpred]
        · have hdk' := Bool.eq_false_iff.mpr hdk
          simp only [Bool.not_true, Bool.not_false, Bool.false_eq_true, if_false, hdk',
            if_true, hpred]

/-- C2 amended: when every entry of the ops list is a non-null object (the
shape every validated payload has), the classifier is exactly the
order-preserving partition by the claim's net predicate; entries that are
not non-null objects are silently dropped into neither bucket. -/
theorem c2_classifier_amended (ops : List JVal)
    (h : ∀ op ∈ ops, op.truthy = true ∧ op.isTypeofObject = true) :
    splitAiOpsForAutoApply (.obj [("ops", .arr ops)]) =
      (ops.filter autoPredClaim, ops.filter fun op => !autoPredClaim op) := by
  rw [splitAiOps_on_ops]
  induction ops with
  | nil => rfl
  | cons op rest ih =>
      obtain ⟨hot, hoo⟩ := h op (List.mem_cons_self _ _)
      have hrest := ih fun o ho => h o (List.mem_cons_of_mem _ ho)
      rw [splitLoop_cons_obj op rest hot hoo, hrest]
      by_cases hp : autoPredClaim op = true
      · simp [List.filter_cons, hp]
      · have hp' := Bool.eq_false_iff.mpr hp
        simp [List.filter_cons, hp']

/-- Witness for C2 at a concrete two-op payload: a safe update is
auto-applied, a delete goes to review. -/
theorem c2_classifier_witness :
    splitAiOpsForAutoApply (.obj [("ops", .arr
        [.obj [("op", .str "update"), ("id", .str "t1"), ("fields", .obj [("title", .str "x")])],
         .obj [("op", .str "delete"), ("id", .str "t2")]])]) =
      ([.obj [("op", .str "update"), ("id", .str "t1"), ("fields", .obj [("title", .str "x")])]],
       [.obj [("op", .str "delete"), ("id", .str "t2")]]) := by
  have h := c2_classifier_amended
    [.obj [("op", .str "update"), ("id", .str "t1"), ("fields", .obj [("title", .str "x")])],
     .obj [("op", .str "delete"), ("id", .str "t2")]] (by decide)
  rw [h]
  decide

/-! ### Claim C6: recurrence rules in the merged view -/

/-- The C6 claim as stated: every rule in `merge(base, overlay)`'s
`recurrence_rules` carries a boolean `enabled` flag resolved from
`recurrence_overrides` (defaulting to true). -/
def C6_claim : Prop :=
  ∀ (base : BaseData) (ovl : Overlays), ∀ r ∈ (mergeData base ovl).recurrence_rules,
    ∃ b : Bool, r.get "enabled" = some (.bool b) ∧
      JVal.bool b = ruleEnabled ovl.recurrence_overrides r

/-- C6 counterexample: `mergeData` passes recurrence rules through
unchanged and attaches no `enabled` flag; a base rule without an `enabled`
key has none in the merged view either.  The flag only exists transiently
in `renderRecurring`'s per-rule resolution. -/
theorem c6_recurrence_counterexample : ¬ C6_claim := by
  intro h
  obtain ⟨b, hb, _⟩ :=
    h ⟨.arr [], .arr [], .arr [.obj [("id", .str "r1")]]⟩ defaultOverlaysT
      (.obj [("id", .str "r1")]) (by decide)
  have hnone : (JVal.obj [("id", .str "r1")]).get "enabled" = none := by decide
  rw [hnone] at hb
  cases hb

/-- C6 amended: `mergeData` passes the base `recurrence_rules` through
completely unchanged (no `enabled` flag is attached to the merged rules);
the boolean enabled state is resolved per rule only at render time as
`overrides[r.id]?.enabled ?? true`, which defaults to enabled when the rule
has no override and returns the override's `enabled` value when it is a
present boolean. -/
theorem c6_recurrence_amended (base : BaseData) (ovl : Overlays) (r o : JVal) (b : Bool) :
    (mergeData base ovl).recurrence_rules = asArray base.recurrence_rules ∧
    (overrideFor ovl.recurrence_overrides r = none →
      ruleEnabled ovl.recurrence_overrides r = .bool true) ∧
    (overrideFor ovl.recurrence_overrides r = some o →
      o.get "enabled" = some (.bool b) →
      ruleEnabled ovl.recurrence_overrides r = .bool b) := by
  refine ⟨rfl, ?_, ?_⟩
  · intro hnone
    unfold ruleEnabled
    rw [hnone]
  · intro hsome hen
    unfold ruleEnabled
    rw [hsome]
    cases o with
    | null => cases hen
    | bool bb => cases hen
    | num n => cases hen
    | str s => cases hen
    | arr xs => cases hen
    | obj kvs =>
        show (match JVal.get (.obj kvs) "enabled" with
              | none => JVal.bool true
              | some .null => JVal.bool true
              | some w => w) = JVal.bool b
        rw [hen]

/-- Witness for C6: a concrete rule with no override resolves to enabled,
one with an `enabled: false` override resolves to disabled, and merge
passes rules through. -/
theorem c6_recurrence_witness :
    (mergeData ⟨.arr [], .arr [], .arr [.obj [("id", .str "r1")]]⟩ defaultOverlaysT).recurrence_rules =
      [.obj [("id", .str "r1")]] ∧
    ruleEnabled [] (.obj [("id", .str "r1")]) = .bool true ∧
    ruleEnabled [("r2", .obj [("enabled", .bool false)])] (.obj [("id", .str "r2")]) = .bool false := by
  refine ⟨?_, ?_, ?_⟩
  · exact (c6_recurrence_amended ⟨.arr [], .arr [], .arr [.obj [("id", .str "r1")]]⟩
      defaultOverlaysT (.obj [("id", .str "r1")]) .null true).1
  · exact (c6_recurrence_amended ⟨.arr [], .arr [], .arr []⟩
      { defaultOverlaysT with recurrence_overrides := [] }
      (.obj [("id", .str "r1")]) .null true).2.1 (by decide)
  · exact (c6_recurrence_amended ⟨.arr [], .arr [], .arr []⟩
      { defaultOverlaysT with recurrence_overrides := [("r2", .obj [("enabled", .bool false)])] }
      (.obj [("id", .str "r2")]) (.obj [("enabled", .bool false)]) false).2.2
      (by decide) (by decide)

/-! ### Claim C9: model-response JSON extraction -/

/-- The C9 claim as stated (its universal part): when the trimmed text is
not itself brace-delimited, the extractor returns the parse of the first
balanced \x7b...\x7d object embedded in the text whenever that parses. -/
def C9_claim : Prop :=
  ∀ (txt s : String),
    ¬(headIsChar (strTrim txt) '\x7b' = true ∧ lastIsChar (strTrim txt) '\x7d' = true) →
    firstBalancedSpan txt = some s →
    (jsonParse s).isSome = true →
    tryParseJsonFromText txt = jsonParse s

/-- C9 counterexample: on `see \x7b"a": 1\x7d and \x7b"b": 2\x7d done`, the
first balanced object `\x7b"a": 1\x7d` parses, but the greedy regex grabs
from the first `\x7b` to the LAST `\x7d`, which does not parse, so the code
returns null instead of the first balanced object's parse. -/
theorem c9_extractor_counterexample : ¬ C9_claim := by
  intro h
  have := h "see \x7b\"a\": 1\x7d and \x7b\"b\": 2\x7d done" "\x7b\"a\": 1\x7d"
    (by decide) (by decide) (by decide)
  revert this
  decide

/-- C9 amended: the extractor returns the parse of the whole trimmed text
when that text is brace-delimited and parses; otherwise it parses the span
from the first `\x7b` to the LAST `\x7d` of the raw text (the greedy regex
match), returning null when that span is absent or does not parse. -/
theorem c9_extractor_amended (txt : String) :
    (∀ v, (headIsChar (strTrim txt) '\x7b' && lastIsChar (strTrim txt) '\x7d') = true →
      jsonParse (strTrim txt) = some v → tryParseJsonFromText txt = some v) ∧
    ((headIsChar (strTrim txt) '\x7b' && lastIsChar (strTrim txt) '\x7d') = false →
      tryParseJsonFromText txt =
        (match greedyBraceSpan txt with
         | some s => jsonParse s
         | none => none)) ∧
    (jsonParse (strTrim txt) = none →
      tryParseJsonFromText txt =
        (match greedyBraceSpan txt with
         | some s => jsonParse s
         | none => none)) := by
  have hstep : tryParseJsonFromText txt =
      (if (headIsChar (strTrim txt) '\x7b' && lastIsChar (strTrim txt) '\x7d') = true then
         match jsonParse (strTrim txt) with
         | some v => some v
         | none =>
             match greedyBraceSpan txt with
             | some s => jsonParse s
             | none => none
       else
         match greedyBraceSpan txt with
         | some s => jsonParse s
         | none => none) := rfl
  refine ⟨?_, ?_, ?_⟩
  · intro v hbr hp
    rw [hstep, if_pos hbr, hp]
  · intro hbr
    rw [hstep, if_neg (by rw [hbr]; exact Bool.false_ne_true)]
  · intro hp
    by_cases hbr : (headIsChar (strTrim txt) '\x7b' && lastIsChar (strTrim txt) '\x7d') = true
    · rw [hstep, if_pos hbr, hp]
    · rw [hstep, if_neg hbr]

/-- Witness for C9: the amended characterization evaluated at a concrete
response with trailing prose, and at a directly-parsing response. -/
theorem c9_extractor_witness :
    tryParseJsonFromText "see \x7b\"a\": 1\x7d and \x7b\"b\": 2\x7d done" = none ∧
    tryParseJsonFromText " \x7b\"a\": 1\x7d " = some (.obj [("a", .num 1)]) := by
  constructor
  · have := (c9_extractor_amended "see \x7b\"a\": 1\x7d and \x7b\"b\": 2\x7d done").2.1 (by decide)
    rw [this]
    decide
  · exact (c9_extractor_amended " \x7b\"a\": 1\x7d ").1 (.obj [("a", .num 1)]) (by decide) (by decide)

/-! ### Claim C4: overlay loading defends sub-fields -/

theorem lookupKV_mergePairs_isSome {a : List (String × JVal)} (b : List (String × JVal))
    (k : String) (h : (lookupKV a k).isSome = true) :
    (lookupKV (mergePairs a b) k).isSome = true := by
  rw [lookupKV_mergePairs]
  cases hb : lastBind b k with
  | some v => rfl
  | none => exact h

theorem loadOverlaysFromValue_gets (now : String) (v : JVal) :
    (loadOverlaysFromValue now v).get "deletions" = some (loadDeletions v) ∧
    (loadOverlaysFromValue now v).get "new_tasks" = some (loadNewTasks v) ∧
    (loadOverlaysFromValue now v).get "task_overrides" = some (loadTaskOverrides v) ∧
    (loadOverlaysFromValue now v).get "recurrence_overrides" = some (loadRecOverrides v) ∧
    (loadOverlaysFromValue now v).get "learning" = some (loadLearning v) := by
  have hrepr : loadOverlaysFromValue now v =
      .obj (objUpsert (objUpsert (objUpsert (objUpsert (objUpsert
        (mergePairs (mergePairs [] (spreadPairs (defaultOverlaysV now))) (spreadPairs v))
        "deletions" (loadDeletions v))
        "new_tasks" (loadNewTasks v))
        "task_overrides" (loadTaskOverrides v))
        "recurrence_overrides" (loadRecOverrides v))
        "learning" (loadLearning v)) := rfl
  rw [hrepr]
  show lookupKV _ "deletions" = _ ∧ lookupKV _ "new_tasks" = _ ∧
    lookupKV _ "task_overrides" = _ ∧ lookupKV _ "recurrence_overrides" = _ ∧
    lookupKV _ "learning" = _
  refine ⟨?_, ?_, ?_, ?_, ?_⟩
  · rw [lookupKV_objUpsert_ne _ _ _ _ (by decide), lookupKV_objUpsert_ne _ _ _ _ (by decide),
      lookupKV_objUpsert_ne _ _ _ _ (by decide), lookupKV_objUpsert_ne _ _ _ _ (by decide),
      lookupKV_objUpsert_self]
  · rw [lookupKV_objUpsert_ne _ _ _ _ (by decide), lookupKV_objUpsert_ne _ _ _ _ (by decide),
      lookupKV_objUpsert_ne _ _ _ _ (by decide), lookupKV_objUpsert_self]
  · rw [lookupKV_objUpsert_ne _ _ _ _ (by decide), lookupKV_objUpsert_ne _ _ _ _ (by decide),
      lookupKV_objUpsert_self]
  · rw [lookupKV_objUpsert_ne _ _ _ _ (by decide), lookupKV_objUpsert_self]
  · rw [lookupKV_objUpsert_self]

/-- The C4 claim as stated: for every persisted input, every nesting level
is defended independently, so the loaded overlay's `learning` always has an
array `completion_log`, an array `move_log` and an object `stats`. -/
def C4_claim : Prop :=
  ∀ (now : String) (raw : Option String),
    ∃ kvs, (loadOverlays now raw).get "learning" = some (.obj kvs) ∧
      (∃ xs, lookupKV kvs "completion_log" = some (.arr xs)) ∧
      (∃ xs, lookupKV kvs "move_log" = some (.arr xs)) ∧
      (∃ skvs, lookupKV kvs "stats" = some (.obj skvs))

/-- C4 counterexample: `{"deletions":["a"],"learning":{"completion_log":5}}`
loads to an overlay whose `learning.completion_log` is the corrupt number 5
(the shallow spread `{...defaults.learning, ...obj.learning}` keeps a
present corrupt sub-field), not the structural default array. -/
theorem c4_load_counterexample : ¬ C4_claim := by
  intro h
  obtain ⟨kvs, hk, ⟨xs, hc⟩, _⟩ :=
    h "T" (some "\x7b\"deletions\":[\"a\"],\"learning\":\x7b\"completion_log\":5\x7d\x7d")
  have hval : (loadOverlays "T"
      (some "\x7b\"deletions\":[\"a\"],\"learning\":\x7b\"completion_log\":5\x7d\x7d")).get "learning" =
      some (.obj [("completion_log", .num 5), ("move_log", .arr []),
                  ("stats", .obj [("moves", .num 0), ("completes", .num 0)])]) := by
    decide
  rw [hval] at hk
  cases hk
  have hlu : lookupKV [("completion_log", JVal.num 5), ("move_log", .arr []),
      ("stats", .obj [("moves", .num 0), ("completes", .num 0)])] "completion_log" =
      some (.num 5) := by decide
  rw [hlu] at hc
  simp at hc

/-- C4 amended: `load()` always succeeds; the TOP-LEVEL fields are defended
independently (`deletions`/`new_tasks` are always arrays, with a valid
`deletions` array preserved verbatim next to corrupt siblings;
`task_overrides`/`recurrence_overrides` are always truthy objects;
`learning` is always an object carrying the `completion_log`/`move_log`/
`stats` keys); absent, empty or unparseable persisted strings yield the
default scaffold; but WITHIN `learning` the defense is only a shallow
merge: a sub-field missing from a truthy-object `learning` input is
defaulted, while a present corrupt sub-field is carried through unchanged
rather than replaced by its structural default. -/
theorem c4_load_amended (now : String) (v : JVal) (raw : String) :
    (loadOverlays now none = defaultOverlaysV now) ∧
    (jsonParse raw = none → loadOverlays now (some raw) = defaultOverlaysV now) ∧
    (∃ xs, (loadOverlaysFromValue now v).get "deletions" = some (.arr xs)) ∧
    (∀ xs, v.get "deletions" = some (.arr xs) →
      (loadOverlaysFromValue now v).get "deletions" = some (.arr xs)) ∧
    (∃ xs, (loadOverlaysFromValue now v).get "new_tasks" = some (.arr xs)) ∧
    (∃ w, (loadOverlaysFromValue now v).get "task_overrides" = some w ∧
      w.truthy = true ∧ w.isTypeofObject = true) ∧
    (∃ w, (loadOverlaysFromValue now v).get "recurrence_overrides" = some w ∧
      w.truthy = true ∧ w.isTypeofObject = true) ∧
    (∃ kvs, (loadOverlaysFromValue now v).get "learning" = some (.obj kvs) ∧
      (lookupKV kvs "completion_log").isSome = true ∧
      (lookupKV kvs "move_log").isSome = true ∧
      (lookupKV kvs "stats").isSome = true) ∧
    (∀ lv, v.get "learning" = some lv → (lv.truthy && lv.isTypeofObject) = true →
      ∀ key dflt, lookupKV (spreadPairs defaultLearningV) key = some dflt →
        lastBind (spreadPairs lv) key = none →
        ∃ kvs, (loadOverlaysFromValue now v).get "learning" = some (.obj kvs) ∧
          lookupKV kvs key = some dflt) := by
  obtain ⟨hdel, hnts, htov, hrov, hlrn⟩ := loadOverlaysFromValue_gets now v
  refine ⟨rfl, ?_, ?_, ?_, ?_, ?_, ?_, ?_, ?_⟩
  · intro hp
    show (if raw = "" then defaultOverlaysV now
          else match jsonParse raw with
               | none => defaultOverlaysV now
               | some obj => loadOverlaysFromValue now obj) = defaultOverlaysV now
    by_cases hraw : raw = ""
    · rw [if_pos hraw]
    · rw [if_neg hraw, hp]
  · rw [hdel]
    unfold loadDeletions
    split
    · exact ⟨_, rfl⟩
    · exact ⟨_, rfl⟩
  · intro xs hxs
    rw [hdel]
    unfold loadDeletions
    rw [hxs]
  · rw [hnts]
    unfold loadNewTasks
    split
    · exact ⟨_, rfl⟩
    · exact ⟨_, rfl⟩
  · rw [htov]
    refine ⟨loadTaskOverrides v, rfl, ?_⟩
    unfold loadTaskOverrides
    split
    · split
      · rename_i hcond
        rw [Bool.and_eq_true] at hcond
        exact hcond
      · exact ⟨rfl, rfl⟩
    · exact ⟨rfl, rfl⟩
  · rw [hrov]
    refine ⟨loadRecOverrides v, rfl, ?_⟩
    unfold loadRecOverrides
    split
    · split
      · rename_i hcond
        rw [Bool.and_eq_true] at hcond
        exact hcond
      · exact ⟨rfl, rfl⟩
    · exact ⟨rfl, rfl⟩
  · rw [hlrn]
    unfold loadLearning
    split
    · split
      · refine ⟨_, rfl, ?_, ?_, ?_⟩
        · exact lookupKV_mergePairs_isSome _ _ (by decide)
        · exact lookupKV_mergePairs_isSome _ _ (by decide)
        · exact lookupKV_mergePairs_isSome _ _ (by decide)
      · exact ⟨_, rfl, by decide, by decide, by decide⟩
    · exact ⟨_, rfl, by decide, by decide, by decide⟩
  · intro lv hlv hcond key dflt hdflt hmiss
    rw [hlrn]
    unfold loadLearning
    rw [hlv]
    show ∃ kvs, some (if (lv.truthy && lv.isTypeofObject) = true then
        JVal.obj (mergePairs (mergePairs [] (spreadPairs defaultLearningV)) (spreadPairs lv))
      else defaultLearningV) = some (JVal.obj kvs) ∧ lookupKV kvs key = some dflt
    rw [if_pos hcond]
    refine ⟨_, rfl, ?_⟩
    rw [lookupKV_mergePairs, hmiss]
    have : mergePairs [] (spreadPairs defaultLearningV) = spreadPairs defaultLearningV := by
      decide
    rw [this, hdflt]

/-- Witness for C4: the amended behavior at a concrete corrupt input (valid
deletions preserved next to the corrupt learning object, whose missing
`stats` sub-field the theorem locates) and at an unparseable input. -/
theorem c4_load_witness :
    loadOverlays "T" (some "x") = defaultOverlaysV "T" ∧
    (loadOverlaysFromValue "T"
      (.obj [("deletions", .arr [.str "a"]), ("learning", .obj [("completion_log", .num 5)])])).get
      "deletions" = some (.arr [.str "a"]) ∧
    ((loadOverlaysFromValue "T"
      (.obj [("deletions", .arr [.str "a"]), ("learning", .obj [("completion_log", .num 5)])])).get
      "learning").isSome = true := by
  have h := c4_load_amended "T"
    (.obj [("deletions", .arr [.str "a"]), ("learning", .obj [("completion_log", .num 5)])]) "x"
  refine ⟨h.2.1 (by decide), h.2.2.2.1 [.str "a"] (by decide), ?_⟩
  obtain ⟨kvs, hk, -⟩ := h.2.2.2.2.2.2.2.2 (.obj [("completion_log", .num 5)]) (by decide)
    (by decide) "stats" (.obj [("moves", .num 0), ("completes", .num 0)]) (by decide) (by decide)
  rw [hk]
  rfl

/-! ### Merge projections and patch-lookup lemmas (shared by C1 and C10) -/

theorem mergeData_tasks (base : BaseData) (ovl : Overlays) :
    (mergeData base ovl).tasks =
      ((asArray base.tasks).filter (keepItem ovl.deletions)).map
        (applyOverride ovl.task_overrides) ++
      ovl.new_tasks.filter (keepItem ovl.deletions) := rfl

theorem mergeData_events (base : BaseData) (ovl : Overlays) :
    (mergeData base ovl).events =
      ((asArray base.events).filter (keepItem ovl.deletions)).map
        (applyOverride ovl.task_overrides) := rfl

theorem jsSpread2_get (a b : JVal) (k : String) :
    (jsSpread2 a b).get k =
      (match lastBind (spreadPairs b) k with
       | some v => some v
       | none => lookupKV (mergePairs [] (spreadPairs a)) k) := by
  show lookupKV (mergePairs (mergePairs [] (spreadPairs a)) (spreadPairs b)) k = _
  exact lookupKV_mergePairs _ _ _

theorem keepItem_obj {dels : List String} {t : JVal} (h : keepItem dels t = true) :
    ∃ kvs, t = JVal.obj kvs := by
  cases t with
  | obj kvs => exact ⟨kvs, rfl⟩
  | null => simp [keepItem, JVal.truthy] at h
  | bool b => simp [keepItem, JVal.get] at h
  | num n => simp [keepItem, JVal.get] at h
  | str s => simp [keepItem, JVal.get] at h
  | arr xs => simp [keepItem, JVal.get] at h

theorem keepItem_id_ne {dels : List String} {id : String} (hdel : id ∈ dels) {t : JVal}
    (hkeep : keepItem dels t = true) : t.get "id" ≠ some (.str id) := by
  intro hid
  unfold keepItem at hkeep
  rw [Bool.and_eq_true] at hkeep
  have h2 := hkeep.2
  rw [hid] at h2
  have h2' : ((JVal.str id).truthy && !(idDeleted dels (.str id))) = true := h2
  have hd : idDeleted dels (.str id) = true := by
    unfold idDeleted
    exact List.elem_eq_true_of_mem hdel
  rw [hd] at h2'
  simp at h2'

theorem applyOverride_id_ne {dels : List String} (ov : List (String × JVal)) {id : String}
    (hdel : id ∈ dels) {t : JVal} (hkeep : keepItem dels t = true)
    (hnd : (objKeysOf t).Nodup)
    (hpatch : ∀ q ∈ ov, ∀ r ∈ spreadPairs q.2, r.1 = "id" → r.2 ≠ JVal.str id) :
    (applyOverride ov t).get "id" ≠ some (.str id) := by
  obtain ⟨kvs, rfl⟩ := keepItem_obj hkeep
  unfold applyOverride
  cases hov : overrideFor ov (.obj kvs) with
  | none => exact keepItem_id_ne hdel hkeep
  | some p =>
      show (if p.truthy = true then jsSpread2 (.obj kvs) p else .obj kvs).get "id" ≠ _
      by_cases hpt : p.truthy = true
      · rw [if_pos hpt, jsSpread2_get]
        have hovm : ∃ key, (key, p) ∈ ov := by
          unfold overrideFor at hov
          cases hgid : (JVal.obj kvs).get "id" with
          | some iv => rw [hgid] at hov; exact ⟨_, lookupKV_mem hov⟩
          | none => rw [hgid] at hov; exact ⟨_, lookupKV_mem hov⟩
        cases hlb : lastBind (spreadPairs p) "id" with
        | some w =>
            obtain ⟨key, hkey⟩ := hovm
            have hw : w ≠ JVal.str id := hpatch _ hkey _ (lastBind_mem hlb) rfl
            intro hcontra
            rw [Option.some_inj] at hcontra
            exact hw hcontra
        | none =>
            have hred : mergePairs [] (spreadPairs (JVal.obj kvs)) = kvs :=
              mergePairs_nil_of_nodup kvs hnd
            rw [hred]
            exact keepItem_id_ne hdel hkeep
      · rw [if_neg hpt]
        exact keepItem_id_ne hdel hkeep

/-! ### Claim C1: deletion dominance -/

/-- The C1 claim as stated: for every base, overlay and deleted id, no item
carrying that id appears among the merged tasks or events. -/
def C1_claim : Prop :=
  ∀ (base : BaseData) (ovl : Overlays) (id : String), id ∈ ovl.deletions →
    (∀ t ∈ (mergeData base ovl).tasks, t.get "id" ≠ some (.str id)) ∧
    (∀ e ∈ (mergeData base ovl).events, e.get "id" ≠ some (.str id))

/-- Concrete inputs for the C1 counterexample and witness: "x" is deleted,
and the patch for the surviving task "a" contains an `id` field renaming it
to "x" (the shallow spread `{...t, ...patch}` overwrites `id`). -/
def c1Base : BaseData :=
  ⟨.arr [.obj [("id", .str "a")], .obj [("id", .str "x")]],
   .arr [.obj [("id", .str "x")], .obj [("id", .str "e1")]], .arr []⟩

def c1Ovl : Overlays :=
  ⟨["x"], [("a", .obj [("id", .str "x")])], [.obj [("id", .str "x")], .obj [("id", .str "n1")]],
   [], ⟨[], [], 0, 0⟩⟩

/-- C1 counterexample: with base task "a" patched by `{id: "x"}` while "x"
is deleted, the merged tasks contain an item whose id is the deleted "x". -/
theorem c1_deletion_dominance_counterexample : ¬ C1_claim := by
  intro h
  exact absurd ((h c1Base c1Ovl "x" (by decide)).1 (.obj [("id", .str "x")]) (by decide))
    (by decide)

/-- C1 amended: deletion dominates provided no `task_overrides` patch
itself writes an `id` field equal to the deleted id (and base items are
well-formed objects without duplicate keys): then no filtered base task, no
filtered base event, and no appended `new_tasks` entry of the merged view
carries the deleted id, regardless of any patch stored for that id and of
the id's presence in the base. -/
theorem c1_deletion_dominance_amended (base : BaseData) (ovl : Overlays) (id : String)
    (hdel : id ∈ ovl.deletions)
    (hpatch : ∀ q ∈ ovl.task_overrides, ∀ r ∈ spreadPairs q.2, r.1 = "id" → r.2 ≠ JVal.str id)
    (hwf : ∀ t ∈ asArray base.tasks ++ asArray base.events, (objKeysOf t).Nodup) :
    (∀ t ∈ (mergeData base ovl).tasks, t.get "id" ≠ some (.str id)) ∧
    (∀ e ∈ (mergeData base ovl).events, e.get "id" ≠ some (.str id)) := by
  constructor
  · intro t ht
    rw [mergeData_tasks] at ht
    rcases List.mem_append.mp ht with hleft | hright
    · obtain ⟨t0, ht0, rfl⟩ := List.mem_map.mp hleft
      have hf := List.mem_filter.mp ht0
      exact applyOverride_id_ne ovl.task_overrides hdel hf.2
        (hwf t0 (List.mem_append.mpr (Or.inl hf.1))) hpatch
    · exact keepItem_id_ne hdel (List.mem_filter.mp hright).2
  · intro e he
    rw [mergeData_events] at he
    obtain ⟨e0, he0, rfl⟩ := List.mem_map.mp he
    have hf := List.mem_filter.mp he0
    exact applyOverride_id_ne ovl.task_overrides hdel hf.2
      (hwf e0 (List.mem_append.mpr (Or.inr hf.1))) hpatch

/-- Witness for C1 (amended) at a concrete overlay whose patches write no
`id` field: the deleted id is absent from the merged view even though the
base, the patches and the pending `new_tasks` all mention it. -/
theorem c1_deletion_dominance_witness :
    (JVal.obj [("id", .str "a"), ("title", .str "T")]).get "id" ≠ some (.str "x") := by
  have h := c1_deletion_dominance_amended c1Base
    ⟨["x"], [("a", .obj [("title", .str "T")]), ("x", .obj [("title", .str "ghost")])],
     [.obj [("id", .str "x")]], [], ⟨[], [], 0, 0⟩⟩ "x"
    (by decide) (by decide) (by decide)
  exact h.1 (.obj [("id", .str "a"), ("title", .str "T")]) (by decide)

/-! ### Claim C10: task_overrides patches apply to base events -/

/-- C10: `task_overrides` patches are applied to surviving base events
exactly as to base tasks — the same `applyOverride` pass over the same
overrides map — so an event whose id has a truthy patch is replaced by the
shallow merge `{...event, ...patch}` in the merged view; by the shallow-
merge lookup laws the patch's fields win and all other event fields pass
through. -/
theorem c10_event_overrides (base : BaseData) (ovl : Overlays) (e p : JVal)
    (he : e ∈ asArray base.events)
    (hkeep : keepItem ovl.deletions e = true)
    (hov : overrideFor ovl.task_overrides e = some p)
    (hp : p.truthy = true)
    (hnd : (objKeysOf e).Nodup) :
    jsSpread2 e p ∈ (mergeData base ovl).events ∧
    (∀ k v, lastBind (spreadPairs p) k = some v → (jsSpread2 e p).get k = some v) ∧
    (∀ k, lastBind (spreadPairs p) k = none → (jsSpread2 e p).get k = e.get k) ∧
    (mergeData base ovl).events =
      ((asArray base.events).filter (keepItem ovl.deletions)).map
        (applyOverride ovl.task_overrides) ∧
    (mergeData base ovl).tasks =
      ((asArray base.tasks).filter (keepItem ovl.deletions)).map
        (applyOverride ovl.task_overrides) ++
      ovl.new_tasks.filter (keepItem ovl.deletions) := by
  obtain ⟨kvs, rfl⟩ := keepItem_obj hkeep
  have happ : applyOverride ovl.task_overrides (.obj kvs) = jsSpread2 (.obj kvs) p := by
    unfold applyOverride
    rw [hov]
    show (if p.truthy = true then jsSpread2 (.obj kvs) p else .obj kvs) = _
    rw [if_pos hp]
  refine ⟨?_, ?_, ?_, mergeData_events base ovl, mergeData_tasks base ovl⟩
  · rw [mergeData_events, ← happ]
    exact List.mem_map_of_mem _ (List.mem_filter.mpr ⟨he, hkeep⟩)
  · intro k v hlb
    rw [jsSpread2_get, hlb]
  · intro k hlb
    rw [jsSpread2_get, hlb]
    have hred : mergePairs [] (spreadPairs (JVal.obj kvs)) = kvs :=
      mergePairs_nil_of_nodup kvs hnd
    rw [hred]
    rfl

/-- Witness for C10 at a concrete base event patched through
`task_overrides`: the patched event appears in the merged view with the
patch's field applied and the untouched field preserved. -/
theorem c10_event_overrides_witness :
    jsSpread2 (.obj [("id", .str "e1"), ("title", .str "Old")]) (.obj [("title", .str "New")]) ∈
      (mergeData ⟨.arr [], .arr [.obj [("id", .str "e1"), ("title", .str "Old")]], .arr []⟩
        ⟨[], [("e1", .obj [("title", .str "New")])], [], [], ⟨[], [], 0, 0⟩⟩).events := by
  exact (c10_event_overrides
    ⟨.arr [], .arr [.obj [("id", .str "e1"), ("title", .str "Old")]], .arr []⟩
    ⟨[], [("e1", .obj [("title", .str "New")])], [], [], ⟨[], [], 0, 0⟩⟩
    (.obj [("id", .str "e1"), ("title", .str "Old")]) (.obj [("title", .str "New")])
    (by decide) (by decide) (by decide) (by decide) (by decide)).1

/-! ### Claim C8: defer by one day -/

/-- The field `field` of the patch stored for `id` in an overlay. -/
def resultPatchField (ovl : Overlays) (id field : String) : Option JVal :=
  match lookupKV ovl.task_overrides id with
  | some (.obj pr) => lookupKV pr field
  | _ => none

/-- Modelled from the claim wording of C8: the item's current date for a
field, the overlay patch value taking precedence over the base field. -/
def claimEffective (patchVal itemVal : Option JVal) : Option JVal :=
  if truthyO patchVal then patchVal else itemVal

/-- The C8 claim as stated: the defer-by-one-day transition advances the
LATER of the item's current due date and current start date by exactly one
calendar day (in the field that held it). -/
def C8_claim : Prop :=
  ∀ (now : String) (today : Int) (tasks : List JVal) (ovl : Overlays) (id : String)
    (item : JVal) (dD sD : Int),
    tasks.find? (fun t => t.get "id" = some (.str id)) = some item →
    parseISODateV (claimEffective (((ensurePatch ovl.task_overrides id).1).get "due_date")
      (item.get "due_date")) = some dD →
    parseISODateV (claimEffective (((ensurePatch ovl.task_overrides id).1).get "start_date")
      (item.get "start_date")) = some sD →
    (dD ≥ sD → resultPatchField (deferOneDay now today tasks ovl id) id "due_date" =
      some (.str (isoFromDay (max dD sD + 1)))) ∧
    (sD > dD → resultPatchField (deferOneDay now today tasks ovl id) id "start_date" =
      some (.str (isoFromDay (max dD sD + 1))))

/-- C8 counterexample: for a task due 2024-01-01 with start date 2024-06-01
(the later of the two), the claim wants the start advanced to 2024-06-02;
the code instead picks the DUE date first (`patch.due || item.due ||
patch.start || item.start`), writing 2024-01-02 into both fields. -/
theorem c8_defer_counterexample : ¬ C8_claim := by
  intro h
  have := (h "T" 0
    [.obj [("id", .str "t"), ("due_date", .str "2024-01-01"), ("start_date", .str "2024-06-01")]]
    defaultOverlaysT "t"
    (.obj [("id", .str "t"), ("due_date", .str "2024-01-01"), ("start_date", .str "2024-06-01")])
    19723 19875 (by decide) (by decide) (by decide)).2 (by decide)
  exact absurd this (by decide)

theorem deferPatch_due (todayDay : Int) (patch0 item : JVal) :
    lookupKV (deferPatch todayDay patch0 item) "due_date" =
      some (.str (deferNextISO todayDay patch0 item)) := by
  unfold deferPatch
  split
  · exact lookupKV_objUpsert_self _ _ _
  · rw [lookupKV_objUpsert_ne _ _ _ _ (by decide)]
    exact lookupKV_objUpsert_self _ _ _

theorem deferPatch_start (todayDay : Int) (patch0 item : JVal) :
    lookupKV (deferPatch todayDay patch0 item) "start_date" =
      (if truthyO (lookupKV (mergePairs [] (spreadPairs patch0)) "start_date") then
         lookupKV (mergePairs [] (spreadPairs patch0)) "start_date"
       else some (.str (deferNextISO todayDay patch0 item))) := by
  have hp1 : lookupKV (deferP1 todayDay patch0 item) "start_date" =
      lookupKV (mergePairs [] (spreadPairs patch0)) "start_date" := by
    unfold deferP1
    exact lookupKV_objUpsert_ne _ _ _ _ (by decide)
  unfold deferPatch
  rw [hp1]
  split
  · rw [hp1]
  · exact lookupKV_objUpsert_self _ _ _

/-- C8 amended: `deferOneDay` advances by one calendar day the FIRST
available of (patched due, base due, patched start, base start) — due
taking precedence over start, the patch over the base field — writing the
result into the patch's `due_date`, and into `start_date` too when no
truthy patched start exists; it appends a `defer_1d` entry to the bounded
move log and increments the move counter. -/
theorem c8_defer_amended (now : String) (today : Int) (tasks : List JVal) (ovl : Overlays)
    (id : String) (item : JVal) (pkvs tov1 : List (String × JVal)) (d : Int)
    (hfind : tasks.find? (fun t => t.get "id" = some (.str id)) = some item)
    (hep : ensurePatch ovl.task_overrides id = (.obj pkvs, tov1))
    (hnd : (pkvs.map Prod.fst).Nodup)
    (hsel : parseISODateV (deferSelect (.obj pkvs) item) = some d) :
    resultPatchField (deferOneDay now today tasks ovl id) id "due_date" =
      some (.str (isoFromDay (d + 1))) ∧
    resultPatchField (deferOneDay now today tasks ovl id) id "start_date" =
      (if truthyO (lookupKV pkvs "start_date") then lookupKV pkvs "start_date"
       else some (.str (isoFromDay (d + 1)))) ∧
    (deferOneDay now today tasks ovl id).learning.moves = ovl.learning.moves + 1 ∧
    (∃ fromV toV, (deferOneDay now today tasks ovl id).learning.move_log =
      takeLast 400 (ovl.learning.move_log ++ [moveEntry now (.str id) fromV toV "defer_1d"])) := by
  have hdo : deferOneDay now today tasks ovl id = deferOneDayFound now today item ovl id := by
    unfold deferOneDay
    rw [hfind]
  have hnext : deferNextISO today (.obj pkvs) item = isoFromDay (d + 1) := by
    unfold deferNextISO
    rw [hsel]
  have hmerge : mergePairs [] (spreadPairs (JVal.obj pkvs)) = pkvs :=
    mergePairs_nil_of_nodup pkvs hnd
  have htov : (deferOneDayFound now today item ovl id).task_overrides =
      objUpsert tov1 id (.obj (deferPatch today (.obj pkvs) item)) := by
    unfold deferOneDayFound
    rw [hep]
  have hlearn : (deferOneDayFound now today item ovl id).learning =
      logMove now (.str id) (deferBefore (.obj pkvs) item)
        (deferAfter today (.obj pkvs) item) "defer_1d" ovl.learning := by
    unfold deferOneDayFound
    rw [hep]
  have hlook : lookupKV (deferOneDayFound now today item ovl id).task_overrides id =
      some (.obj (deferPatch today (.obj pkvs) item)) := by
    rw [htov]
    exact lookupKV_objUpsert_self _ _ _
  refine ⟨?_, ?_, ?_, ?_⟩
  · rw [hdo]
    unfold resultPatchField
    rw [hlook]
    show lookupKV (deferPatch today (.obj pkvs) item) "due_date" = _
    rw [deferPatch_due, hnext]
  · rw [hdo]
    unfold resultPatchField
    rw [hlook]
    show lookupKV (deferPatch today (.obj pkvs) item) "start_date" = _
    rw [deferPatch_start, hmerge, hnext]
  · rw [hdo, hlearn]
    rfl
  · rw [hdo, hlearn]
    exact ⟨deferBefore (.obj pkvs) item, deferAfter today (.obj pkvs) item, rfl⟩

/-- Witness for C8 (amended) at the concrete task due 2024-01-01 with start
2024-06-01 and an empty overlay: the due date is deferred to 2024-01-02. -/
theorem c8_defer_witness :
    resultPatchField (deferOneDay "T" 0
      [.obj [("id", .str "t"), ("due_date", .str "2024-01-01"), ("start_date", .str "2024-06-01")]]
      defaultOverlaysT "t") "t" "due_date" = some (.str "2024-01-02") := by
  have h := c8_defer_amended "T" 0
    [.obj [("id", .str "t"), ("due_date", .str "2024-01-01"), ("start_date", .str "2024-06-01")]]
    defaultOverlaysT "t"
    (.obj [("id", .str "t"), ("due_date", .str "2024-01-01"), ("start_date", .str "2024-06-01")])
    [] [("t", .obj [])] 19723 (by decide) (by decide) (by decide) (by decide)
  have h1 := h.1
  rw [h1]
  decide
